import Mathlib

/-!
Shallow embedding of the cache simulator core (src/main.c) and proofs about it.

The embedding keeps the C names where Lean allows it.  Machine integers
(`unsigned int`) are modelled as `Nat`; the C bit masks on power-of-two
quantities are modelled with `%` and `/`:
  `address & ((1 << b) - 1) = address % 2 ^ b`,
  `address >> b            = address / 2 ^ b`  (written `>>>`),
  `address & ~(B - 1)      = address - address % B` for `B = 2 ^ b`.
The RAM file is modelled as a total byte function `Nat → Nat`; each cache
line's block buffer is likewise a byte function indexed by block offset
(only offsets below the block size B are meaningful).
-/

namespace CacheSim

/-- A cache line: valid bit, tag, FIFO fill counter, and the block's bytes
(byte at offset `o` is `block o`).  Mirrors `CacheLine` in main.c; the C
`unsigned char *block` buffer of B bytes is the restriction of `block` to
offsets below B. -/
structure CacheLine where
  valid : Bool
  tag : Nat
  fifo_counter : Nat
  block : Nat → Nat

instance : Inhabited CacheLine := ⟨⟨false, 0, 0, fun _ => 0⟩⟩

/-- A cache: geometry (`s` set-index bits, `E` lines per set, `b` block-offset
bits), the global FIFO timestamp `fifo_time`, and the sets (`sets i` is the
list of E lines of set `i`).  Mirrors `Cache`/`CacheSet` in main.c.  The C
stores the derived fields `S = 1 << s` and `B = 1 << b`; here they are the
derived functions `Cache.S` and `Cache.B`. -/
structure Cache where
  s : Nat
  E : Nat
  b : Nat
  fifo_time : Nat
  sets : Nat → List CacheLine

/-- Number of sets, `S = 1 << s` as set by `create_cache`. -/
def Cache.S (c : Cache) : Nat := 2 ^ c.s

/-- Block size in bytes, `B = 1 << b` as set by `create_cache`. -/
def Cache.B (c : Cache) : Nat := 2 ^ c.b

/-- Line `k` of a list of lines (out-of-range reads give the default line;
the C indexes within bounds everywhere we rely on this). -/
def lineAt (L : List CacheLine) (k : Nat) : CacheLine := L.getD k default

/-- Replace line `k` of set `idx` (sets and other lines unchanged). -/
def Cache.setLine (c : Cache) (idx k : Nat) (l : CacheLine) : Cache :=
  { c with sets := fun j => if j = idx then (c.sets idx).set k l else c.sets j }

/-- The per-access result record, mirroring `AccessResult` in main.c; the C
`int` flags are `Bool` here and the default values model the caller's
`memset(&res, 0, sizeof(AccessResult))`. -/
structure AccessResult where
  l1_hit : Bool := false
  l1_miss : Bool := false
  l1_evict : Bool := false
  l2_hit : Bool := false
  l2_miss : Bool := false
  l2_evict : Bool := false
  placed_in_l1 : Bool := false
  placed_in_l2 : Bool := false
  set_l1 : Nat := 0
  set_l2 : Nat := 0
  wrote_to_ram : Bool := false
deriving DecidableEq

/-- One cache level's running counters (the `*_hit`, `*_miss`, `*_evict`
int counters in `main`, incremented through pointers by the access
functions). -/
structure Stats where
  hits : Nat := 0
  misses : Nat := 0
  evictions : Nat := 0
deriving DecidableEq

/-- Result of `find_line` in main.c: the hit line index, or (-1 plus the
victim out-parameter) on a miss. -/
inductive FindResult where
  | hit (idx : Nat)
  | miss (victim : Nat)
deriving DecidableEq

/-- Address decomposition `tag = address >> (b + s)` from
`extract_address_parts` in main.c. -/
def extract_tag (address s b : Nat) : Nat := address >>> (b + s)

/-- Address decomposition `set = (address >> b) & ((1 << s) - 1)` from
`extract_address_parts` in main.c. -/
def extract_set (address s b : Nat) : Nat := (address >>> b) % 2 ^ s

/-- Address decomposition `offset = address & ((1 << b) - 1)` from
`extract_address_parts` in main.c. -/
def extract_offset (address b : Nat) : Nat := address % 2 ^ b

/-- The scan loop of `find_line` in main.c, transcribed over the suffix of
the set's lines starting at index `i`; `oldest`/`oldest_counter` are the
running FIFO-oldest tracking variables.  The loop body checks, in order:
valid-and-tag-match (hit), invalid (immediate miss with this victim), and
the FIFO-age update. -/
def find_line_go (t : Nat) (rest : List CacheLine) (i oldest oldest_counter : Nat) :
    FindResult :=
  match rest with
  | [] => FindResult.miss oldest
  | line :: rest' =>
    if line.valid && line.tag == t then FindResult.hit i
    else if !line.valid then FindResult.miss i
    else if line.fifo_counter < oldest_counter then
      find_line_go t rest' (i + 1) i line.fifo_counter
    else
      find_line_go t rest' (i + 1) oldest oldest_counter

/-- `find_line` in main.c.  The initial FIFO tracking state is
`oldest = 0`, `oldest_counter = lines[0].fifo_counter` (the C reads
`lines[0]` unconditionally; for an empty set `headI` supplies the default
line). -/
def find_line (c : Cache) (set_index t : Nat) : FindResult :=
  find_line_go t (c.sets set_index) 0 0 (c.sets set_index).headI.fifo_counter

/-- `create_cache` in main.c: all lines start invalid with tag 0 and FIFO
counter 0.  The freshly `malloc`ed block buffers hold indeterminate bytes;
they are modelled as all-zero, which is unobservable while the line is
invalid. -/
def create_cache (s E b : Nat) : Cache :=
  { s := s, E := E, b := b, fifo_time := 0,
    sets := fun _ => List.replicate E { valid := false, tag := 0, fifo_counter := 0,
                                        block := fun _ => 0 } }

/-- The backing store (the RAM.dat file) as a total byte function. -/
def Ram : Type := Nat → Nat

/-- The containing block's base address, `address & ~(block_size - 1)` in
main.c (for the power-of-two block sizes in use this clears the low offset
bits, i.e. subtracts `address % block_size`). -/
def block_base (address block_size : Nat) : Nat := address - address % block_size

/-- `read_block_from_ram` in main.c: seek to the block base and read the
block; the returned function is the filled block buffer (offset `o` holds
the RAM byte at `block base + o`). -/
def read_block_from_ram (ram : Ram) (address block_size : Nat) : Nat → Nat :=
  fun o => ram (block_base address block_size + o)

/-- The effect of `memcpy(block + off, data, num_bytes)` on a line's block
buffer: bytes `[off, off + data.length)` become `data`, all others are
unchanged. -/
def block_write (blk : Nat → Nat) (off : Nat) (data : List Nat) : Nat → Nat :=
  fun o => if off ≤ o ∧ o < off + data.length then data.getD (o - off) 0 else blk o

/-- `write_block_to_ram` in main.c: read the containing block into a temp
buffer, `memcpy` the data over `[offset, offset + num_bytes)`, and write the
`block_size` bytes of the buffer back.  Only the `block_size` bytes starting
at the block base are written back, so data bytes that would land past the
block end are dropped.  (The 64-byte bound of the C temp buffer is modelled
separately by `temp_block_accesses`.) -/
def write_block_to_ram (ram : Ram) (address : Nat) (data : List Nat)
    (block_size : Nat) : Ram :=
  fun a =>
    let bs := block_base address block_size
    let off := address - bs
    if bs ≤ a ∧ a < bs + block_size then
      if off ≤ a - bs ∧ a - bs < off + data.length then data.getD (a - bs - off) 0
      else ram a
    else ram a

/-- Indices of the 64-byte stack buffer `temp_block` touched by one call of
`write_block_to_ram` in main.c: the `fread` fills indices `[0, block_size)`,
the `memcpy` writes `[offset, offset + num_bytes)`, and the `fwrite` reads
`[0, block_size)` again. -/
def temp_block_accesses (address num_bytes block_size : Nat) : List Nat :=
  let off := address - block_base address block_size
  List.range block_size ++ (List.range num_bytes).map (fun i => off + i) ++
    List.range block_size

/-- Declared size of the `temp_block` stack buffer in `write_block_to_ram`. -/
def temp_block_len : Nat := 64

/-- Output of `access_load` (equally used for INST fetches): the two updated
caches, both updated counter groups, and the per-access result record. -/
structure LoadOut where
  L1 : Cache
  L2 : Cache
  s1 : Stats
  s2 : Stats
  res : AccessResult

/-- `access_load` in main.c (lines 330-399), used for LOAD on L1D and for
INST on L1I.  Note: after an L1 miss the C sets `result->l1_evict = 1`
unconditionally (main.c:393 sits outside the `if`), while the eviction
counter is only incremented when the victim line was valid; both behaviours
are transcribed as-is. -/
def access_load (L1 L2 : Cache) (address : Nat) (ram : Ram) (s1 s2 : Stats) :
    LoadOut :=
  let l1_tag := extract_tag address L1.s L1.b
  let l1_set := extract_set address L1.s L1.b
  match find_line L1 l1_set l1_tag with
  | FindResult.hit _ =>
      { L1 := L1, L2 := L2, s1 := { s1 with hits := s1.hits + 1 }, s2 := s2,
        res := { set_l1 := l1_set, l1_hit := true } }
  | FindResult.miss l1_victim =>
      let s1m : Stats := { s1 with misses := s1.misses + 1 }
      let l2_tag := extract_tag address L2.s L2.b
      let l2_set := extract_set address L2.s L2.b
      let r0 : AccessResult := { set_l1 := l1_set, l1_miss := true, set_l2 := l2_set }
      let step2 : Cache × Stats × AccessResult :=
        match find_line L2 l2_set l2_tag with
        | FindResult.hit _ =>
            (L2, { s2 with hits := s2.hits + 1 }, { r0 with l2_hit := true })
        | FindResult.miss l2_victim =>
            let ev := (lineAt (L2.sets l2_set) l2_victim).valid
            let s2m : Stats :=
              { s2 with
                misses := s2.misses + 1
                evictions := s2.evictions + (if ev then 1 else 0) }
            let newline2 : CacheLine :=
              { valid := true, tag := l2_tag, fifo_counter := L2.fifo_time,
                block := read_block_from_ram ram address (2 ^ L2.b) }
            ({ (L2.setLine l2_set l2_victim newline2) with fifo_time := L2.fifo_time + 1 },
             s2m,
             { r0 with l2_miss := true, l2_evict := ev, placed_in_l2 := true })
      let l1ev := (lineAt (L1.sets l1_set) l1_victim).valid
      let s1f : Stats :=
        { s1m with evictions := s1m.evictions + (if l1ev then 1 else 0) }
      let newline1 : CacheLine :=
        { valid := true, tag := l1_tag, fifo_counter := L1.fifo_time,
          block := read_block_from_ram ram address (2 ^ L1.b) }
      { L1 := { (L1.setLine l1_set l1_victim newline1) with fifo_time := L1.fifo_time + 1 },
        L2 := step2.1, s1 := s1f, s2 := step2.2.1,
        res := { step2.2.2 with l1_evict := true, placed_in_l1 := true } }

/-- Output of `access_store`: updated caches, updated RAM, counters, the
result record, and the number of `write_block_to_ram` calls made. -/
structure StoreOut where
  L1 : Cache
  L2 : Cache
  ram : Ram
  s1 : Stats
  s2 : Stats
  res : AccessResult
  writes : Nat

/-- `access_store` in main.c (lines 479-588): write-through,
no-write-allocate at L1, block-offset aware.  On an L1 hit the RAM
write-through happens after the L2 handling (so an L2 miss fill reads
pre-store RAM and is then overwritten with the data); on an L1 miss the RAM
write-through happens first and the L2 fill reads post-store RAM.  Both
branches call `write_block_to_ram` exactly once, with the L1 block size. -/
def access_store (L1 L2 : Cache) (address : Nat) (data : List Nat) (ram : Ram)
    (s1 s2 : Stats) : StoreOut :=
  let l1_tag := extract_tag address L1.s L1.b
  let l1_set := extract_set address L1.s L1.b
  let l1_offset := address % 2 ^ L1.b
  let l2_tag := extract_tag address L2.s L2.b
  let l2_set := extract_set address L2.s L2.b
  let l2_offset := address % 2 ^ L2.b
  match find_line L1 l1_set l1_tag with
  | FindResult.hit l1_idx =>
      let hitline := lineAt (L1.sets l1_set) l1_idx
      let L1' := L1.setLine l1_set l1_idx
        { hitline with block := block_write hitline.block l1_offset data }
      let s1h : Stats := { s1 with hits := s1.hits + 1 }
      let r0 : AccessResult := { set_l1 := l1_set, l1_hit := true, set_l2 := l2_set }
      let step2 : Cache × Stats × AccessResult :=
        match find_line L2 l2_set l2_tag with
        | FindResult.hit l2_idx =>
            let hl2 := lineAt (L2.sets l2_set) l2_idx
            (L2.setLine l2_set l2_idx
               { hl2 with block := block_write hl2.block l2_offset data },
             { s2 with hits := s2.hits + 1 }, { r0 with l2_hit := true })
        | FindResult.miss l2_victim =>
            let ev := (lineAt (L2.sets l2_set) l2_victim).valid
            let s2m : Stats :=
              { s2 with
                misses := s2.misses + 1
                evictions := s2.evictions + (if ev then 1 else 0) }
            let newline2 : CacheLine :=
              { valid := true, tag := l2_tag, fifo_counter := L2.fifo_time,
                block := block_write (read_block_from_ram ram address (2 ^ L2.b))
                           l2_offset data }
            ({ (L2.setLine l2_set l2_victim newline2) with fifo_time := L2.fifo_time + 1 },
             s2m,
             { r0 with l2_miss := true, l2_evict := ev, placed_in_l2 := true })
      { L1 := L1', L2 := step2.1,
        ram := write_block_to_ram ram address data (2 ^ L1.b),
        s1 := s1h, s2 := step2.2.1,
        res := { step2.2.2 with wrote_to_ram := true }, writes := 1 }
  | FindResult.miss _ =>
      let s1m : Stats := { s1 with misses := s1.misses + 1 }
      let r0 : AccessResult := { set_l1 := l1_set, l1_miss := true,
                                 wrote_to_ram := true, set_l2 := l2_set }
      let ram' := write_block_to_ram ram address data (2 ^ L1.b)
      let step2 : Cache × Stats × AccessResult :=
        match find_line L2 l2_set l2_tag with
        | FindResult.hit l2_idx =>
            let hl2 := lineAt (L2.sets l2_set) l2_idx
            (L2.setLine l2_set l2_idx
               { hl2 with block := block_write hl2.block l2_offset data },
             { s2 with hits := s2.hits + 1 }, { r0 with l2_hit := true })
        | FindResult.miss l2_victim =>
            let ev := (lineAt (L2.sets l2_set) l2_victim).valid
            let s2m : Stats :=
              { s2 with
                misses := s2.misses + 1
                evictions := s2.evictions + (if ev then 1 else 0) }
            let newline2 : CacheLine :=
              { valid := true, tag := l2_tag, fifo_counter := L2.fifo_time,
                block := block_write (read_block_from_ram ram' address (2 ^ L2.b))
                           l2_offset data }
            ({ (L2.setLine l2_set l2_victim newline2) with fifo_time := L2.fifo_time + 1 },
             s2m,
             { r0 with l2_miss := true, l2_evict := ev, placed_in_l2 := true })
      { L1 := L1, L2 := step2.1, ram := ram', s1 := s1m, s2 := step2.2.1,
        res := step2.2.2, writes := 1 }

/-- Output of `access_modify`: the final state plus the two independent
result records of the load phase and the store phase. -/
structure ModifyOut where
  L1 : Cache
  L2 : Cache
  ram : Ram
  s1 : Stats
  s2 : Stats
  load_res : AccessResult
  store_res : AccessResult
  writes : Nat

/-- `access_modify` in main.c (lines 590-604): a LOAD to the address
immediately followed by a STORE to the same address, with two independent
(freshly zeroed) result records and the same counters threaded through
both phases. -/
def access_modify (L1 L2 : Cache) (address : Nat) (data : List Nat) (ram : Ram)
    (s1 s2 : Stats) : ModifyOut :=
  let lo := access_load L1 L2 address ram s1 s2
  let so := access_store lo.L1 lo.L2 address data ram lo.s1 lo.s2
  { L1 := so.L1, L2 := so.L2, ram := so.ram, s1 := so.s1, s2 := so.s2,
    load_res := lo.res, store_res := so.res, writes := so.writes }

/-- Operation kinds of the trace, mirroring `OpType` in main.c. -/
inductive OpType where
  | load
  | store
  | modify
  | inst
deriving DecidableEq

/-- One decoded trace operation: kind, address, and (for STORE/MODIFY) the
data bytes already decoded from the hex string by the external parser. -/
structure TraceOp where
  op : OpType
  address : Nat
  data : List Nat := []

/-- The whole simulator state threaded through the replay loop of `main`:
the three cache instances, the RAM image, and the three counter groups. -/
structure SimState where
  L1D : Cache
  L1I : Cache
  L2 : Cache
  ram : Ram
  sD : Stats
  sI : Stats
  s2 : Stats

/-- One iteration of the replay loop in `main` (lines 916-1028): LOAD and
STORE go to L1D, INST goes to L1I, MODIFY is the load-then-store pair; all
share L2, the RAM image, and the L2 counters. -/
def stepOp (st : SimState) (op : TraceOp) : SimState :=
  match op.op with
  | OpType.load =>
      let o := access_load st.L1D st.L2 op.address st.ram st.sD st.s2
      { st with L1D := o.L1, L2 := o.L2, sD := o.s1, s2 := o.s2 }
  | OpType.inst =>
      let o := access_load st.L1I st.L2 op.address st.ram st.sI st.s2
      { st with L1I := o.L1, L2 := o.L2, sI := o.s1, s2 := o.s2 }
  | OpType.store =>
      let o := access_store st.L1D st.L2 op.address op.data st.ram st.sD st.s2
      { st with L1D := o.L1, L2 := o.L2, ram := o.ram, sD := o.s1, s2 := o.s2 }
  | OpType.modify =>
      let o := access_modify st.L1D st.L2 op.address op.data st.ram st.sD st.s2
      { st with L1D := o.L1, L2 := o.L2, ram := o.ram, sD := o.s1, s2 := o.s2 }

/-- Replay a trace: fold `stepOp` over the operation list in order. -/
def replay (st : SimState) : List TraceOp → SimState
  | [] => st
  | op :: ops => replay (stepOp st op) ops

/-- The startup state of `main`: three freshly created caches (both L1
instances share the L1 geometry), the initial RAM image, and zeroed
counters. -/
def initState (l1s l1E l1b l2s l2E l2b : Nat) (ram : Ram) : SimState :=
  { L1D := create_cache l1s l1E l1b, L1I := create_cache l1s l1E l1b,
    L2 := create_cache l2s l2E l2b, ram := ram,
    sD := {}, sI := {}, s2 := {} }

/-! ### Basic facts about `lineAt` and `List.set` -/

theorem lineAt_nil (k : Nat) : lineAt [] k = default := rfl

theorem lineAt_cons_zero (l : CacheLine) (r : List CacheLine) : lineAt (l :: r) 0 = l := rfl

theorem lineAt_cons_succ (l : CacheLine) (r : List CacheLine) (k : Nat) :
    lineAt (l :: r) (k + 1) = lineAt r k := rfl

theorem headI_eq_lineAt_zero (L : List CacheLine) (h : 0 < L.length) :
    L.headI = lineAt L 0 := by
  cases L with
  | nil => simp at h
  | cons l r => rfl

theorem lineAt_set_self (L : List CacheLine) (v : Nat) (x : CacheLine) (h : v < L.length) :
    lineAt (L.set v x) v = x := by
  induction L generalizing v with
  | nil => simp at h
  | cons l r ih =>
    cases v with
    | zero => rfl
    | succ v =>
      have hv : v < r.length := by simpa using h
      simpa [List.set, lineAt_cons_succ] using ih v hv

theorem lineAt_set_ne (L : List CacheLine) (v k : Nat) (x : CacheLine) (h : k ≠ v) :
    lineAt (L.set v x) k = lineAt L k := by
  induction L generalizing v k with
  | nil => rfl
  | cons l r ih =>
    cases v with
    | zero =>
      cases k with
      | zero => exact absurd rfl h
      | succ k => rfl
    | succ v =>
      cases k with
      | zero => rfl
      | succ k =>
        have hk : k ≠ v := fun hkv => h (by omega)
        simpa [List.set, lineAt_cons_succ] using ih v k hk

/-! ### Characterization of the `find_line` scan -/

/-- Soundness of the hit return: a hit at absolute index `j` means the line
`j - i` of the scanned suffix is valid with a matching tag, and every line
of the suffix before it is valid with a different tag. -/
theorem find_line_go_hit (t : Nat) (rest : List CacheLine) (i old oc j : Nat)
    (h : find_line_go t rest i old oc = FindResult.hit j) :
    ∃ m, m < rest.length ∧ j = i + m ∧
      (lineAt rest m).valid = true ∧ (lineAt rest m).tag = t ∧
      ∀ k, k < m → (lineAt rest k).valid = true ∧ (lineAt rest k).tag ≠ t := by
  induction rest generalizing i old oc with
  | nil => simp [find_line_go] at h
  | cons l r ih =>
    rw [find_line_go] at h
    split at h
    next hhit =>
      injection h with hij
      rw [Bool.and_eq_true, beq_iff_eq] at hhit
      exact ⟨0, by simp, by omega, by simpa [lineAt_cons_zero] using hhit.1,
        by simpa [lineAt_cons_zero] using hhit.2, by omega⟩
    next hhit =>
      rw [Bool.and_eq_true, beq_iff_eq] at hhit
      split at h
      next hval => cases h
      next hval =>
        rw [Bool.not_eq_true', Bool.not_eq_false] at hval
        have step : ∃ old' oc', find_line_go t r (i + 1) old' oc' = FindResult.hit j := by
          split at h
          · exact ⟨i, l.fifo_counter, h⟩
          · exact ⟨old, oc, h⟩
        obtain ⟨old', oc', h'⟩ := step
        obtain ⟨m, hm, hj, hv, htag, hbefore⟩ := ih (i + 1) old' oc' h'
        refine ⟨m + 1, by simpa using Nat.succ_lt_succ hm, by omega,
          by simpa [lineAt_cons_succ] using hv, by simpa [lineAt_cons_succ] using htag, ?_⟩
        intro k hk
        cases k with
        | zero =>
          refine ⟨by simpa [lineAt_cons_zero] using hval, ?_⟩
          intro hteq
          exact hhit ⟨hval, by simpa [lineAt_cons_zero] using hteq⟩
        | succ k =>
          have := hbefore k (by omega)
          simpa [lineAt_cons_succ] using this

/-- Completeness of the hit return: if line `m` of the scanned suffix is
valid with a matching tag and every earlier line of the suffix is valid
with a different tag, the scan hits at absolute index `i + m`. -/
theorem find_line_go_hit_complete (t : Nat) (rest : List CacheLine) (i old oc m : Nat)
    (hm : m < rest.length)
    (hv : (lineAt rest m).valid = true) (ht : (lineAt rest m).tag = t)
    (hbefore : ∀ k, k < m → (lineAt rest k).valid = true ∧ (lineAt rest k).tag ≠ t) :
    find_line_go t rest i old oc = FindResult.hit (i + m) := by
  induction rest generalizing i old oc m with
  | nil => simp at hm
  | cons l r ih =>
    cases m with
    | zero =>
      have hlv : l.valid = true := by simpa [lineAt_cons_zero] using hv
      have hlt : l.tag = t := by simpa [lineAt_cons_zero] using ht
      rw [find_line_go, if_pos (by rw [Bool.and_eq_true, beq_iff_eq]; exact ⟨hlv, hlt⟩)]
      simp
    | succ m =>
      have h0 := hbefore 0 (Nat.succ_pos m)
      have hlv : l.valid = true := by simpa [lineAt_cons_zero] using h0.1
      have hlt : l.tag ≠ t := by simpa [lineAt_cons_zero] using h0.2
      have hm' : m < r.length := by simpa using hm
      have hv' : (lineAt r m).valid = true := by simpa [lineAt_cons_succ] using hv
      have ht' : (lineAt r m).tag = t := by simpa [lineAt_cons_succ] using ht
      have hb' : ∀ k, k < m → (lineAt r k).valid = true ∧ (lineAt r k).tag ≠ t := by
        intro k hk
        have := hbefore (k + 1) (by omega)
        simpa [lineAt_cons_succ] using this
      have hcomb : (l.valid && l.tag == t) = false := by
        cases hbe : l.tag == t
        · simp [hbe]
        · exact absurd (by simpa using hbe) hlt
      have harith : i + 1 + m = i + (m + 1) := by omega
      rw [find_line_go, if_neg (by simp [hcomb]), if_neg (by simp [hlv])]
      split
      · rw [← harith]; exact ih (i + 1) i l.fifo_counter m hm' hv' ht' hb'
      · rw [← harith]; exact ih (i + 1) old oc m hm' hv' ht' hb'

/-- The two ways the scan can report a miss: it stopped at the first invalid
line of the suffix (with all earlier suffix lines valid and non-matching),
or it ran through the whole suffix finding only valid non-matching lines. -/
theorem find_line_go_miss (t : Nat) (rest : List CacheLine) (i old oc v : Nat)
    (h : find_line_go t rest i old oc = FindResult.miss v) :
    (∃ m, m < rest.length ∧ v = i + m ∧ (lineAt rest m).valid = false ∧
       ∀ k, k < m → (lineAt rest k).valid = true ∧ (lineAt rest k).tag ≠ t) ∨
    (∀ k, k < rest.length → (lineAt rest k).valid = true ∧ (lineAt rest k).tag ≠ t) := by
  induction rest generalizing i old oc with
  | nil => right; intro k hk; simp at hk
  | cons l r ih =>
    rw [find_line_go] at h
    split at h
    next hhit => cases h
    next hhit =>
      rw [Bool.and_eq_true, beq_iff_eq] at hhit
      split at h
      next hval =>
        rw [Bool.not_eq_true'] at hval
        injection h with hvi
        exact Or.inl ⟨0, by simp, by omega, by simpa [lineAt_cons_zero] using hval, by omega⟩
      next hval =>
        rw [Bool.not_eq_true', Bool.not_eq_false] at hval
        have hlt : l.tag ≠ t := fun hteq => hhit ⟨hval, hteq⟩
        have step : ∃ old' oc', find_line_go t r (i + 1) old' oc' = FindResult.miss v := by
          split at h
          · exact ⟨i, l.fifo_counter, h⟩
          · exact ⟨old, oc, h⟩
        obtain ⟨old', oc', h'⟩ := step
        rcases ih (i + 1) old' oc' h' with ⟨m, hm, hv, hinv, hbefore⟩ | hall
        · left
          refine ⟨m + 1, by simpa using Nat.succ_lt_succ hm, by omega,
            by simpa [lineAt_cons_succ] using hinv, ?_⟩
          intro k hk
          cases k with
          | zero => exact ⟨by simpa [lineAt_cons_zero] using hval,
              by simpa [lineAt_cons_zero] using hlt⟩
          | succ k =>
            have := hbefore k (by omega)
            simpa [lineAt_cons_succ] using this
        · right
          intro k hk
          cases k with
          | zero => exact ⟨by simpa [lineAt_cons_zero] using hval,
              by simpa [lineAt_cons_zero] using hlt⟩
          | succ k =>
            have := hall k (by simpa using hk)
            simpa [lineAt_cons_succ] using this

/-- FIFO victim choice: when every line of the scanned suffix is valid with
a non-matching tag, the scan's miss victim is either the accumulated oldest
candidate (when no suffix line is strictly older than `oldest_counter`) or
the first suffix line achieving the strict running minimum. -/
theorem find_line_go_oldest (t : Nat) (rest : List CacheLine) (i old oc v : Nat)
    (hall : ∀ k, k < rest.length → (lineAt rest k).valid = true ∧ (lineAt rest k).tag ≠ t)
    (h : find_line_go t rest i old oc = FindResult.miss v) :
    (v = old ∧ ∀ k, k < rest.length → oc ≤ (lineAt rest k).fifo_counter) ∨
    (∃ m, m < rest.length ∧ v = i + m ∧ (lineAt rest m).fifo_counter < oc ∧
       (∀ k, k < rest.length → (lineAt rest m).fifo_counter ≤ (lineAt rest k).fifo_counter) ∧
       (∀ k, k < m → (lineAt rest m).fifo_counter < (lineAt rest k).fifo_counter)) := by
  induction rest generalizing i old oc with
  | nil =>
    left
    constructor
    · rw [find_line_go] at h; injection h with hv; omega
    · intro k hk; simp at hk
  | cons l r ih =>
    have h0 := hall 0 (Nat.succ_pos _)
    have hlv : l.valid = true := by simpa [lineAt_cons_zero] using h0.1
    have hlt : l.tag ≠ t := by simpa [lineAt_cons_zero] using h0.2
    have hcomb : (l.valid && l.tag == t) = false := by
      cases hbe : l.tag == t
      · simp [hbe]
      · exact absurd (by simpa using hbe) hlt
    have hall' : ∀ k, k < r.length → (lineAt r k).valid = true ∧ (lineAt r k).tag ≠ t := by
      intro k hk
      have := hall (k + 1) (by simpa using Nat.succ_lt_succ hk)
      simpa [lineAt_cons_succ] using this
    rw [find_line_go, if_neg (by simp [hcomb]), if_neg (by simp [hlv])] at h
    split at h
    next hf =>
      rcases ih (i + 1) i l.fifo_counter hall' h with ⟨hv, hmin⟩ | ⟨m, hm, hv, hlt2, hmin, hstrict⟩
      · right
        refine ⟨0, by simp, by omega, by simpa [lineAt_cons_zero] using hf, ?_, by omega⟩
        intro k hk
        cases k with
        | zero => simp [lineAt_cons_zero]
        | succ k =>
          have := hmin k (by simpa using hk)
          simpa [lineAt_cons_zero, lineAt_cons_succ] using this
      · right
        refine ⟨m + 1, by simpa using Nat.succ_lt_succ hm, by omega, ?_, ?_, ?_⟩
        · have : (lineAt r m).fifo_counter < l.fifo_counter := by
            simpa [lineAt_cons_succ] using hlt2
          simpa [lineAt_cons_succ] using lt_trans this hf
        · intro k hk
          cases k with
          | zero =>
            have : (lineAt r m).fifo_counter < l.fifo_counter := by
              simpa [lineAt_cons_succ] using hlt2
            simpa [lineAt_cons_zero, lineAt_cons_succ] using le_of_lt this
          | succ k =>
            have := hmin k (by simpa using hk)
            simpa [lineAt_cons_succ] using this
        · intro k hk
          cases k with
          | zero =>
            have : (lineAt r m).fifo_counter < l.fifo_counter := by
              simpa [lineAt_cons_succ] using hlt2
            simpa [lineAt_cons_zero, lineAt_cons_succ] using this
          | succ k =>
            have := hstrict k (by omega)
            simpa [lineAt_cons_succ] using this
    next hf =>
      push_neg at hf
      rcases ih (i + 1) old oc hall' h with ⟨hv, hmin⟩ | ⟨m, hm, hv, hlt2, hmin, hstrict⟩
      · left
        refine ⟨hv, ?_⟩
        intro k hk
        cases k with
        | zero => simpa [lineAt_cons_zero] using hf
        | succ k =>
          have := hmin k (by simpa using hk)
          simpa [lineAt_cons_succ] using this
      · right
        have hmo : (lineAt r m).fifo_counter < oc := by simpa [lineAt_cons_succ] using hlt2
        refine ⟨m + 1, by simpa using Nat.succ_lt_succ hm, by omega,
          by simpa [lineAt_cons_succ] using hmo, ?_, ?_⟩
        · intro k hk
          cases k with
          | zero =>
            have : (lineAt r m).fifo_counter < l.fifo_counter := lt_of_lt_of_le hmo hf
            simpa [lineAt_cons_zero, lineAt_cons_succ] using le_of_lt this
          | succ k =>
            have := hmin k (by simpa using hk)
            simpa [lineAt_cons_succ] using this
        · intro k hk
          cases k with
          | zero =>
            have : (lineAt r m).fifo_counter < l.fifo_counter := lt_of_lt_of_le hmo hf
            simpa [lineAt_cons_zero, lineAt_cons_succ] using this
          | succ k =>
            have := hstrict k (by omega)
            simpa [lineAt_cons_succ] using this

/-! ### Set-level invariants and derived facts about `find_line` -/

/-- `find_line` viewed as a function of a set's line list (the cache-level
`find_line c idx t` is this applied to `c.sets idx`). -/
def find_line_list (t : Nat) (L : List CacheLine) : FindResult :=
  find_line_go t L 0 0 L.headI.fifo_counter

theorem find_line_eq_list (c : Cache) (idx t : Nat) :
    find_line c idx t = find_line_list t (c.sets idx) := rfl

/-- Valid lines occupy an initial segment of the set: any line at or before
a valid line is itself valid.  This holds in every reachable state because
fills always target the first invalid line and lines are never
invalidated. -/
def FirstSeg (L : List CacheLine) : Prop :=
  ∀ j, j < L.length → ∀ i, i ≤ j → (lineAt L j).valid = true → (lineAt L i).valid = true

/-- No two distinct valid lines of the set carry the same tag. -/
def NoDupTags (L : List CacheLine) : Prop :=
  ∀ i, i < L.length → ∀ j, j < L.length → i ≠ j →
    (lineAt L i).valid = true → (lineAt L j).valid = true →
    (lineAt L i).tag ≠ (lineAt L j).tag

/-- The two set-level invariants together. -/
def GoodSet (L : List CacheLine) : Prop := FirstSeg L ∧ NoDupTags L

/-- Both invariants, for every set of a cache. -/
def GoodCache (c : Cache) : Prop := ∀ idx, GoodSet (c.sets idx)

theorem find_line_list_hit (t : Nat) (L : List CacheLine) (j : Nat)
    (h : find_line_list t L = FindResult.hit j) :
    j < L.length ∧ (lineAt L j).valid = true ∧ (lineAt L j).tag = t ∧
      ∀ k, k < j → (lineAt L k).valid = true ∧ (lineAt L k).tag ≠ t := by
  obtain ⟨m, hm, hj, hv, ht, hb⟩ := find_line_go_hit t L 0 0 L.headI.fifo_counter j h
  have : j = m := by omega
  subst this
  exact ⟨hm, hv, ht, hb⟩

theorem find_line_list_miss (t : Nat) (L : List CacheLine) (v : Nat)
    (h : find_line_list t L = FindResult.miss v) :
    (v < L.length ∧ (lineAt L v).valid = false ∧
       ∀ k, k < v → (lineAt L k).valid = true ∧ (lineAt L k).tag ≠ t) ∨
    (∀ k, k < L.length → (lineAt L k).valid = true ∧ (lineAt L k).tag ≠ t) := by
  rcases find_line_go_miss t L 0 0 L.headI.fifo_counter v h with ⟨m, hm, hv, hinv, hb⟩ | hall
  · left
    have : v = m := by omega
    subst this
    exact ⟨hm, hinv, hb⟩
  · right
    exact hall

theorem find_line_list_miss_oldest (t : Nat) (L : List CacheLine) (v : Nat)
    (hlen : 0 < L.length)
    (hall : ∀ k, k < L.length → (lineAt L k).valid = true ∧ (lineAt L k).tag ≠ t)
    (h : find_line_list t L = FindResult.miss v) :
    v < L.length ∧
      (∀ k, k < L.length → (lineAt L v).fifo_counter ≤ (lineAt L k).fifo_counter) ∧
      (∀ k, k < v → (lineAt L v).fifo_counter < (lineAt L k).fifo_counter) := by
  rcases find_line_go_oldest t L 0 0 L.headI.fifo_counter v hall h with
    ⟨hv, hmin⟩ | ⟨m, hm, hv, _, hmin, hstrict⟩
  · subst hv
    refine ⟨hlen, ?_, by omega⟩
    intro k hk
    have := hmin k hk
    rwa [headI_eq_lineAt_zero L hlen] at this
  · have : v = m := by omega
    subst this
    exact ⟨hm, hmin, hstrict⟩

theorem find_line_list_miss_lt (t : Nat) (L : List CacheLine) (v : Nat)
    (hlen : 0 < L.length) (h : find_line_list t L = FindResult.miss v) :
    v < L.length := by
  rcases find_line_list_miss t L v h with ⟨hv, _, _⟩ | hall
  · exact hv
  · exact (find_line_list_miss_oldest t L v hlen hall h).1

theorem find_line_list_miss_before (t : Nat) (L : List CacheLine) (v : Nat)
    (h : find_line_list t L = FindResult.miss v) :
    ∀ k, k < v → (lineAt L k).valid = true ∧ (lineAt L k).tag ≠ t := by
  rcases find_line_list_miss t L v h with ⟨_, _, hb⟩ | hall
  · exact hb
  · intro k hk
    by_cases hkl : k < L.length
    · exact hall k hkl
    · -- v ≤ L.length always fails here: v comes from the fall-through return,
      -- whose accumulator never exceeds the scanned indices; recover via the
      -- oldest characterization when the list is nonempty, else k < v = 0.
      rcases find_line_go_oldest t L 0 0 L.headI.fifo_counter v hall h with
        ⟨hv, _⟩ | ⟨m, hm, hv, _, _, _⟩
      · omega
      · omega

/-- A miss under the initial-segment invariant means no valid line in the
set carries the sought tag. -/
theorem find_line_list_miss_no_match (t : Nat) (L : List CacheLine) (v : Nat)
    (hseg : FirstSeg L) (h : find_line_list t L = FindResult.miss v) :
    ∀ k, k < L.length → (lineAt L k).valid = true → (lineAt L k).tag ≠ t := by
  intro k hk hkv
  rcases find_line_list_miss t L v h with ⟨hv, hinv, hb⟩ | hall
  · by_cases hkv' : k < v
    · exact (hb k hkv').2
    · exfalso
      have : (lineAt L v).valid = true := hseg k hk v (by omega) hkv
      rw [hinv] at this
      cases this
  · exact (hall k hk).2

/-- Filling the miss victim with a valid line carrying the sought tag makes
the subsequent lookup of that tag hit the victim line. -/
theorem find_line_list_fill_hit (t : Nat) (L : List CacheLine) (v f : Nat)
    (blk : Nat → Nat) (hlen : 0 < L.length)
    (h : find_line_list t L = FindResult.miss v) :
    find_line_list t (L.set v { valid := true, tag := t, fifo_counter := f, block := blk }) =
      FindResult.hit v := by
  have hv := find_line_list_miss_lt t L v hlen h
  have hb := find_line_list_miss_before t L v h
  have hres := find_line_go_hit_complete t
    (L.set v { valid := true, tag := t, fifo_counter := f, block := blk }) 0 0
    (L.set v { valid := true, tag := t, fifo_counter := f, block := blk }).headI.fifo_counter v
    (by rw [List.length_set]; exact hv)
    (by rw [lineAt_set_self L v _ hv])
    (by rw [lineAt_set_self L v _ hv])
    (by
      intro k hk
      rw [lineAt_set_ne L v k _ (by omega)]
      exact hb k hk)
  simpa [find_line_list] using hres

/-- Filling the miss victim preserves the initial-segment invariant. -/
theorem fill_FirstSeg (t : Nat) (L : List CacheLine) (v f : Nat) (blk : Nat → Nat)
    (hseg : FirstSeg L) (h : find_line_list t L = FindResult.miss v) :
    FirstSeg (L.set v { valid := true, tag := t, fifo_counter := f, block := blk }) := by
  by_cases hv : v < L.length
  · have hb := find_line_list_miss_before t L v h
    intro j hj i hij hjv
    rw [List.length_set] at hj
    by_cases hiv : i = v
    · rw [hiv, lineAt_set_self L v _ hv]
    · rw [lineAt_set_ne L v i _ hiv]
      by_cases hjv' : j = v
      · exact (hb i (by omega)).1
      · rw [lineAt_set_ne L v j _ hjv'] at hjv
        exact hseg j hj i hij hjv
  · rw [List.set_eq_of_length_le (by omega)]
    exact hseg

/-- Filling the miss victim preserves tag uniqueness: the incoming tag was
not live in the set (given the initial-segment invariant). -/
theorem fill_NoDupTags (t : Nat) (L : List CacheLine) (v f : Nat) (blk : Nat → Nat)
    (hseg : FirstSeg L) (hdup : NoDupTags L)
    (h : find_line_list t L = FindResult.miss v) :
    NoDupTags (L.set v { valid := true, tag := t, fifo_counter := f, block := blk }) := by
  by_cases hv : v < L.length
  · have hnm := find_line_list_miss_no_match t L v hseg h
    intro i hi j hj hij hiv hjv
    rw [List.length_set] at hi hj
    by_cases hik : i = v
    · have hjne : j ≠ v := fun hh => hij (hik.trans hh.symm)
      rw [lineAt_set_ne L v j _ hjne] at hjv
      rw [hik, lineAt_set_self L v _ hv, lineAt_set_ne L v j _ hjne]
      exact fun hh => hnm j hj hjv hh.symm
    · by_cases hjk : j = v
      · rw [lineAt_set_ne L v i _ hik] at hiv
        rw [lineAt_set_ne L v i _ hik, hjk, lineAt_set_self L v _ hv]
        exact hnm i hi hiv
      · rw [lineAt_set_ne L v i _ hik] at hiv
        rw [lineAt_set_ne L v j _ hjk] at hjv
        rw [lineAt_set_ne L v i _ hik, lineAt_set_ne L v j _ hjk]
        exact hdup i hi j hj hij hiv hjv
  · rw [List.set_eq_of_length_le (by omega)]
    exact hdup

/-- Replacing a line by one with the same valid bit and tag (a block-bytes
update) preserves both set invariants. -/
theorem upd_GoodSet (L : List CacheLine) (n : Nat) (x : CacheLine)
    (hv : x.valid = (lineAt L n).valid) (ht : x.tag = (lineAt L n).tag)
    (hg : GoodSet L) : GoodSet (L.set n x) := by
  by_cases hn : n < L.length
  · obtain ⟨hseg, hdup⟩ := hg
    have val_eq : ∀ k, (lineAt (L.set n x) k).valid = (lineAt L k).valid := by
      intro k
      by_cases hk : k = n
      · rw [hk, lineAt_set_self L n _ hn, hv]
      · rw [lineAt_set_ne L n k _ hk]
    have tag_eq : ∀ k, (lineAt (L.set n x) k).tag = (lineAt L k).tag := by
      intro k
      by_cases hk : k = n
      · rw [hk, lineAt_set_self L n _ hn, ht]
      · rw [lineAt_set_ne L n k _ hk]
    constructor
    · intro j hj i hij hjv
      rw [List.length_set] at hj
      rw [val_eq] at hjv ⊢
      exact hseg j hj i hij hjv
    · intro i hi j hj hij hiv hjv
      rw [List.length_set] at hi hj
      rw [val_eq] at hiv hjv
      rw [tag_eq, tag_eq]
      exact hdup i hi j hj hij hiv hjv
  · rw [List.set_eq_of_length_le (by omega)]
    exact hg

/-! ### Address arithmetic and backing-store write lemmas -/

/-- The decoded fields reassemble the address:
`2^(b+s) * tag + 2^b * set + offset = address`. -/
theorem addr_decomp (a s b : Nat) :
    2 ^ (b + s) * extract_tag a s b + 2 ^ b * extract_set a s b + extract_offset a b = a := by
  unfold extract_tag extract_set extract_offset
  rw [Nat.shiftRight_eq_div_pow, Nat.shiftRight_eq_div_pow]
  have h1 : a / 2 ^ (b + s) = a / 2 ^ b / 2 ^ s := by
    rw [Nat.div_div_eq_div_mul, pow_add]
  rw [h1, pow_add]
  have h2 : 2 ^ b * 2 ^ s * (a / 2 ^ b / 2 ^ s) + 2 ^ b * (a / 2 ^ b % 2 ^ s) =
      2 ^ b * (a / 2 ^ b) := by
    rw [mul_assoc, ← Nat.mul_add]
    congr 1
    exact Nat.div_add_mod (a / 2 ^ b) (2 ^ s)
  rw [h2]
  exact Nat.div_add_mod a (2 ^ b)

/-- The base address covered by a line holding tag `t` in set `i` of a cache
with geometry `(s, b)`:  `(t * 2^s + i) * 2^b`. -/
def cover_base (s b t i : Nat) : Nat := (t * 2 ^ s + i) * 2 ^ b

/-- The decoded tag and set of an address cover exactly its containing
block: their `cover_base` is the block-aligned base of the address. -/
theorem cover_base_extract (a s b : Nat) :
    cover_base s b (extract_tag a s b) (extract_set a s b) = block_base a (2 ^ b) := by
  have hd := addr_decomp a s b
  have hexp : cover_base s b (extract_tag a s b) (extract_set a s b) =
      2 ^ (b + s) * extract_tag a s b + 2 ^ b * extract_set a s b := by
    unfold cover_base
    rw [pow_add]
    ring
  have hoff : extract_offset a b = a % 2 ^ b := rfl
  unfold block_base
  omega

/-- Distinct (tag, set) pairs (with set indices below the set count) cover
disjoint address blocks. -/
theorem cover_base_disjoint (s b t1 i1 t2 i2 x : Nat)
    (hi1 : i1 < 2 ^ s) (hi2 : i2 < 2 ^ s) (hne : t1 ≠ t2 ∨ i1 ≠ i2)
    (h1 : cover_base s b t1 i1 ≤ x ∧ x < cover_base s b t1 i1 + 2 ^ b)
    (h2 : cover_base s b t2 i2 ≤ x ∧ x < cover_base s b t2 i2 + 2 ^ b) : False := by
  have hb : 0 < 2 ^ b := Nat.pos_pow_of_pos b (by omega)
  have hm : t1 * 2 ^ s + i1 = t2 * 2 ^ s + i2 := by
    have e1 : x / 2 ^ b = t1 * 2 ^ s + i1 := by
      unfold cover_base at h1
      exact Nat.div_eq_of_lt_le h1.1 (by rw [add_mul, one_mul]; exact h1.2)
    have e2 : x / 2 ^ b = t2 * 2 ^ s + i2 := by
      unfold cover_base at h2
      exact Nat.div_eq_of_lt_le h2.1 (by rw [add_mul, one_mul]; exact h2.2)
    omega
  have hi : i1 = i2 := by
    have m1 : (t1 * 2 ^ s + i1) % 2 ^ s = i1 := by
      rw [Nat.add_comm, Nat.add_mul_mod_self_right]
      exact Nat.mod_eq_of_lt hi1
    have m2 : (t2 * 2 ^ s + i2) % 2 ^ s = i2 := by
      rw [Nat.add_comm, Nat.add_mul_mod_self_right]
      exact Nat.mod_eq_of_lt hi2
    rw [hm] at m1
    omega
  have hs : 0 < 2 ^ s := Nat.pos_pow_of_pos s (by omega)
  have ht : t1 = t2 := by
    subst hi
    have := Nat.eq_of_mul_eq_mul_right hs (by omega : t1 * 2 ^ s = t2 * 2 ^ s)
    exact this
  rcases hne with hne | hne
  · exact hne ht
  · exact hne hi

/-- Frame property of the backing-store write: bytes outside the written
range `[address, address + data.length)` are unchanged, both inside and
outside the containing block. -/
theorem write_block_frame (ram : Ram) (A : Nat) (data : List Nat) (N x : Nat)
    (hx : x < A ∨ A + data.length ≤ x) :
    write_block_to_ram ram A data N x = ram x := by
  simp only [write_block_to_ram, block_base]
  have hm : A % N ≤ A := Nat.mod_le A N
  split_ifs with h1 h2
  · exfalso
    set m := A % N with hmdef
    omega
  · rfl
  · rfl

/-- In-range effect of the backing-store write: when the written range fits
inside the containing block, byte `address + i` becomes `data[i]`. -/
theorem write_block_mem (ram : Ram) (A : Nat) (data : List Nat) (N i : Nat)
    (hin : A % N + data.length ≤ N) (hi : i < data.length) :
    write_block_to_ram ram A data N (A + i) = data.getD i 0 := by
  simp only [write_block_to_ram, block_base]
  have hm : A % N ≤ A := Nat.mod_le A N
  rw [if_pos ?c1, if_pos ?c2]
  case c1 =>
    set m := A % N with hmdef
    omega
  case c2 =>
    set m := A % N with hmdef
    omega
  have hidx : A + i - (A - A % N) - (A - (A - A % N)) = i := by
    set m := A % N with hmdef
    omega
  rw [hidx]

/-! ### Branch shapes of the access functions -/

theorem access_load_hit_shape (L1 L2 : Cache) (a : Nat) (ram : Ram) (s1 s2 : Stats)
    (j : Nat)
    (h1 : find_line L1 (extract_set a L1.s L1.b) (extract_tag a L1.s L1.b) =
      FindResult.hit j) :
    access_load L1 L2 a ram s1 s2 =
      { L1 := L1, L2 := L2, s1 := { s1 with hits := s1.hits + 1 }, s2 := s2,
        res := { set_l1 := extract_set a L1.s L1.b, l1_hit := true } } := by
  simp only [access_load, h1]

theorem access_load_miss_hit_shape (L1 L2 : Cache) (a : Nat) (ram : Ram) (s1 s2 : Stats)
    (v j : Nat)
    (h1 : find_line L1 (extract_set a L1.s L1.b) (extract_tag a L1.s L1.b) =
      FindResult.miss v)
    (h2 : find_line L2 (extract_set a L2.s L2.b) (extract_tag a L2.s L2.b) =
      FindResult.hit j) :
    access_load L1 L2 a ram s1 s2 =
      { L1 := { (L1.setLine (extract_set a L1.s L1.b) v
                  { valid := true, tag := extract_tag a L1.s L1.b,
                    fifo_counter := L1.fifo_time,
                    block := read_block_from_ram ram a (2 ^ L1.b) }) with
                fifo_time := L1.fifo_time + 1 },
        L2 := L2,
        s1 := { s1 with
                misses := s1.misses + 1
                evictions := s1.evictions +
                  (if (lineAt (L1.sets (extract_set a L1.s L1.b)) v).valid then 1 else 0) },
        s2 := { s2 with hits := s2.hits + 1 },
        res := { set_l1 := extract_set a L1.s L1.b, l1_miss := true,
                 set_l2 := extract_set a L2.s L2.b, l2_hit := true,
                 l1_evict := true, placed_in_l1 := true } } := by
  simp only [access_load, h1, h2]

theorem access_load_miss_miss_shape (L1 L2 : Cache) (a : Nat) (ram : Ram) (s1 s2 : Stats)
    (v w : Nat)
    (h1 : find_line L1 (extract_set a L1.s L1.b) (extract_tag a L1.s L1.b) =
      FindResult.miss v)
    (h2 : find_line L2 (extract_set a L2.s L2.b) (extract_tag a L2.s L2.b) =
      FindResult.miss w) :
    access_load L1 L2 a ram s1 s2 =
      { L1 := { (L1.setLine (extract_set a L1.s L1.b) v
                  { valid := true, tag := extract_tag a L1.s L1.b,
                    fifo_counter := L1.fifo_time,
                    block := read_block_from_ram ram a (2 ^ L1.b) }) with
                fifo_time := L1.fifo_time + 1 },
        L2 := { (L2.setLine (extract_set a L2.s L2.b) w
                  { valid := true, tag := extract_tag a L2.s L2.b,
                    fifo_counter := L2.fifo_time,
                    block := read_block_from_ram ram a (2 ^ L2.b) }) with
                fifo_time := L2.fifo_time + 1 },
        s1 := { s1 with
                misses := s1.misses + 1
                evictions := s1.evictions +
                  (if (lineAt (L1.sets (extract_set a L1.s L1.b)) v).valid then 1 else 0) },
        s2 := { s2 with
                misses := s2.misses + 1
                evictions := s2.evictions +
                  (if (lineAt (L2.sets (extract_set a L2.s L2.b)) w).valid then 1 else 0) },
        res := { set_l1 := extract_set a L1.s L1.b, l1_miss := true,
                 set_l2 := extract_set a L2.s L2.b, l2_miss := true,
                 l2_evict := (lineAt (L2.sets (extract_set a L2.s L2.b)) w).valid,
                 placed_in_l2 := true, l1_evict := true, placed_in_l1 := true } } := by
  simp only [access_load, h1, h2]

theorem access_store_hit_hit_shape (L1 L2 : Cache) (a : Nat) (data : List Nat)
    (ram : Ram) (s1 s2 : Stats) (j j2 : Nat)
    (h1 : find_line L1 (extract_set a L1.s L1.b) (extract_tag a L1.s L1.b) =
      FindResult.hit j)
    (h2 : find_line L2 (extract_set a L2.s L2.b) (extract_tag a L2.s L2.b) =
      FindResult.hit j2) :
    access_store L1 L2 a data ram s1 s2 =
      { L1 := L1.setLine (extract_set a L1.s L1.b) j
          { (lineAt (L1.sets (extract_set a L1.s L1.b)) j) with
            block := block_write (lineAt (L1.sets (extract_set a L1.s L1.b)) j).block
              (a % 2 ^ L1.b) data },
        L2 := L2.setLine (extract_set a L2.s L2.b) j2
          { (lineAt (L2.sets (extract_set a L2.s L2.b)) j2) with
            block := block_write (lineAt (L2.sets (extract_set a L2.s L2.b)) j2).block
              (a % 2 ^ L2.b) data },
        ram := write_block_to_ram ram a data (2 ^ L1.b),
        s1 := { s1 with hits := s1.hits + 1 }, s2 := { s2 with hits := s2.hits + 1 },
        res := { set_l1 := extract_set a L1.s L1.b, l1_hit := true,
                 set_l2 := extract_set a L2.s L2.b, l2_hit := true,
                 wrote_to_ram := true },
        writes := 1 } := by
  simp only [access_store, h1, h2]

theorem access_store_hit_miss_shape (L1 L2 : Cache) (a : Nat) (data : List Nat)
    (ram : Ram) (s1 s2 : Stats) (j w : Nat)
    (h1 : find_line L1 (extract_set a L1.s L1.b) (extract_tag a L1.s L1.b) =
      FindResult.hit j)
    (h2 : find_line L2 (extract_set a L2.s L2.b) (extract_tag a L2.s L2.b) =
      FindResult.miss w) :
    access_store L1 L2 a data ram s1 s2 =
      { L1 := L1.setLine (extract_set a L1.s L1.b) j
          { (lineAt (L1.sets (extract_set a L1.s L1.b)) j) with
            block := block_write (lineAt (L1.sets (extract_set a L1.s L1.b)) j).block
              (a % 2 ^ L1.b) data },
        L2 := { (L2.setLine (extract_set a L2.s L2.b) w
                  { valid := true, tag := extract_tag a L2.s L2.b,
                    fifo_counter := L2.fifo_time,
                    block := block_write (read_block_from_ram ram a (2 ^ L2.b))
                      (a % 2 ^ L2.b) data }) with
                fifo_time := L2.fifo_time + 1 },
        ram := write_block_to_ram ram a data (2 ^ L1.b),
        s1 := { s1 with hits := s1.hits + 1 },
        s2 := { s2 with
                misses := s2.misses + 1
                evictions := s2.evictions +
                  (if (lineAt (L2.sets (extract_set a L2.s L2.b)) w).valid then 1 else 0) },
        res := { set_l1 := extract_set a L1.s L1.b, l1_hit := true,
                 set_l2 := extract_set a L2.s L2.b, l2_miss := true,
                 l2_evict := (lineAt (L2.sets (extract_set a L2.s L2.b)) w).valid,
                 placed_in_l2 := true, wrote_to_ram := true },
        writes := 1 } := by
  simp only [access_store, h1, h2]

theorem access_store_miss_hit_shape (L1 L2 : Cache) (a : Nat) (data : List Nat)
    (ram : Ram) (s1 s2 : Stats) (v j2 : Nat)
    (h1 : find_line L1 (extract_set a L1.s L1.b) (extract_tag a L1.s L1.b) =
      FindResult.miss v)
    (h2 : find_line L2 (extract_set a L2.s L2.b) (extract_tag a L2.s L2.b) =
      FindResult.hit j2) :
    access_store L1 L2 a data ram s1 s2 =
      { L1 := L1,
        L2 := L2.setLine (extract_set a L2.s L2.b) j2
          { (lineAt (L2.sets (extract_set a L2.s L2.b)) j2) with
            block := block_write (lineAt (L2.sets (extract_set a L2.s L2.b)) j2).block
              (a % 2 ^ L2.b) data },
        ram := write_block_to_ram ram a data (2 ^ L1.b),
        s1 := { s1 with misses := s1.misses + 1 }, s2 := { s2 with hits := s2.hits + 1 },
        res := { set_l1 := extract_set a L1.s L1.b, l1_miss := true,
                 wrote_to_ram := true,
                 set_l2 := extract_set a L2.s L2.b, l2_hit := true },
        writes := 1 } := by
  simp only [access_store, h1, h2]

theorem access_store_miss_miss_shape (L1 L2 : Cache) (a : Nat) (data : List Nat)
    (ram : Ram) (s1 s2 : Stats) (v w : Nat)
    (h1 : find_line L1 (extract_set a L1.s L1.b) (extract_tag a L1.s L1.b) =
      FindResult.miss v)
    (h2 : find_line L2 (extract_set a L2.s L2.b) (extract_tag a L2.s L2.b) =
      FindResult.miss w) :
    access_store L1 L2 a data ram s1 s2 =
      { L1 := L1,
        L2 := { (L2.setLine (extract_set a L2.s L2.b) w
                  { valid := true, tag := extract_tag a L2.s L2.b,
                    fifo_counter := L2.fifo_time,
                    block := block_write
                      (read_block_from_ram (write_block_to_ram ram a data (2 ^ L1.b)) a
                        (2 ^ L2.b))
                      (a % 2 ^ L2.b) data }) with
                fifo_time := L2.fifo_time + 1 },
        ram := write_block_to_ram ram a data (2 ^ L1.b),
        s1 := { s1 with misses := s1.misses + 1 },
        s2 := { s2 with
                misses := s2.misses + 1
                evictions := s2.evictions +
                  (if (lineAt (L2.sets (extract_set a L2.s L2.b)) w).valid then 1 else 0) },
        res := { set_l1 := extract_set a L1.s L1.b, l1_miss := true,
                 wrote_to_ram := true,
                 set_l2 := extract_set a L2.s L2.b, l2_miss := true,
                 l2_evict := (lineAt (L2.sets (extract_set a L2.s L2.b)) w).valid,
                 placed_in_l2 := true },
        writes := 1 } := by
  simp only [access_store, h1, h2]

/-! ### Cache-level invariants: tag discipline and RAM consistency -/

theorem Cache.setLine_sets_self (c : Cache) (idx k : Nat) (l : CacheLine) :
    (c.setLine idx k l).sets idx = (c.sets idx).set k l := by
  simp [Cache.setLine]

theorem Cache.setLine_sets_ne (c : Cache) (idx k : Nat) (l : CacheLine) (j : Nat)
    (h : j ≠ idx) : (c.setLine idx k l).sets j = c.sets j := by
  simp [Cache.setLine, h]

theorem extract_set_lt (a s b : Nat) : extract_set a s b < 2 ^ s :=
  Nat.mod_lt _ (Nat.pos_pow_of_pos s (by omega))

/-- Every valid line's block bytes agree with the RAM bytes at the
addresses the line covers (one set's worth of the statement). -/
def SetConsist (s b idx : Nat) (L : List CacheLine) (ram : Ram) : Prop :=
  ∀ k, k < L.length → (lineAt L k).valid = true →
    ∀ o, o < 2 ^ b → (lineAt L k).block o = ram (cover_base s b (lineAt L k).tag idx + o)

/-- Every valid line of every (real, index < S) set of the cache agrees
with the RAM at the addresses it covers. -/
def Consist (c : Cache) (ram : Ram) : Prop :=
  ∀ idx, idx < 2 ^ c.s → SetConsist c.s c.b idx (c.sets idx) ram

/-- A RAM change confined to `[A, A + len)` (a range inside A's block at
this geometry) cannot affect the bytes covered by any valid line whose
(tag, set) differs from A's decode. -/
theorem SetConsist_frame (s b idx : Nat) (L : List CacheLine) (ram ram' : Ram)
    (A len : Nat)
    (hframe : ∀ x, x < A ∨ A + len ≤ x → ram' x = ram x)
    (hin : A % 2 ^ b + len ≤ 2 ^ b)
    (hidx : idx < 2 ^ s)
    (hdiff : ∀ k, k < L.length → (lineAt L k).valid = true →
       (lineAt L k).tag ≠ extract_tag A s b ∨ idx ≠ extract_set A s b)
    (hc : SetConsist s b idx L ram) :
    SetConsist s b idx L ram' := by
  intro k hk hkv o ho
  rw [hc k hk hkv o ho]
  have hx : cover_base s b (lineAt L k).tag idx + o < A ∨
      A + len ≤ cover_base s b (lineAt L k).tag idx + o := by
    by_contra hcon
    push_neg at hcon
    have hbbA : block_base A (2 ^ b) ≤ A ∧ A = block_base A (2 ^ b) + A % 2 ^ b := by
      unfold block_base
      have := Nat.mod_le A (2 ^ b)
      omega
    have hmem2 : cover_base s b (extract_tag A s b) (extract_set A s b) ≤
        cover_base s b (lineAt L k).tag idx + o ∧
        cover_base s b (lineAt L k).tag idx + o <
          cover_base s b (extract_tag A s b) (extract_set A s b) + 2 ^ b := by
      rw [cover_base_extract]
      omega
    exact cover_base_disjoint s b (lineAt L k).tag idx (extract_tag A s b)
      (extract_set A s b) (cover_base s b (lineAt L k).tag idx + o) hidx
      (extract_set_lt A s b) (hdiff k hk hkv) ⟨by omega, by omega⟩ hmem2
  exact (hframe _ hx).symm

/-- Filling the miss victim of one set preserves both invariants of the
whole cache (the bumped `fifo_time` is irrelevant to them). -/
theorem fill_GoodCache (c : Cache) (idx t f n : Nat) (blk : Nat → Nat) (v : Nat)
    (hg : GoodCache c) (hm : find_line c idx t = FindResult.miss v) :
    GoodCache { (c.setLine idx v
      { valid := true, tag := t, fifo_counter := f, block := blk }) with
      fifo_time := n } := by
  intro j
  show GoodSet ((c.setLine idx v _).sets j)
  by_cases hj : j = idx
  · rw [hj, Cache.setLine_sets_self]
    rw [find_line_eq_list] at hm
    exact ⟨fill_FirstSeg t (c.sets idx) v f blk (hg idx).1 hm,
      fill_NoDupTags t (c.sets idx) v f blk (hg idx).1 (hg idx).2 hm⟩
  · rw [Cache.setLine_sets_ne c idx v _ j hj]
    exact hg j

/-- Updating a line's block bytes in place (same valid bit and tag)
preserves both invariants of the whole cache. -/
theorem upd_GoodCache (c : Cache) (idx k : Nat) (x : CacheLine)
    (hv : x.valid = (lineAt (c.sets idx) k).valid)
    (ht : x.tag = (lineAt (c.sets idx) k).tag)
    (hg : GoodCache c) : GoodCache (c.setLine idx k x) := by
  intro j
  by_cases hj : j = idx
  · rw [hj, Cache.setLine_sets_self]
    exact upd_GoodSet (c.sets idx) k x hv ht (hg idx)
  · rw [Cache.setLine_sets_ne c idx k _ j hj]
    exact hg j

/-- A load-path fill (block read straight from RAM) preserves consistency
with that same RAM. -/
theorem fill_Consist (c : Cache) (A f n : Nat) (ram : Ram) (v : Nat)
    (hc : Consist c ram) :
    Consist { (c.setLine (extract_set A c.s c.b) v
      { valid := true, tag := extract_tag A c.s c.b, fifo_counter := f,
        block := read_block_from_ram ram A (2 ^ c.b) }) with
      fifo_time := n } ram := by
  intro idx hidx
  have hidx' : idx < 2 ^ c.s := hidx
  show SetConsist c.s c.b idx ((c.setLine (extract_set A c.s c.b) v _).sets idx) ram
  by_cases hj : idx = extract_set A c.s c.b
  · rw [hj, Cache.setLine_sets_self]
    by_cases hvlen : v < (c.sets (extract_set A c.s c.b)).length
    · intro k hk hkv o ho
      rw [List.length_set] at hk
      by_cases hkv' : k = v
      · rw [hkv', lineAt_set_self _ v _ hvlen] at hkv ⊢
        show ram (block_base A (2 ^ c.b) + o) =
          ram (cover_base c.s c.b (extract_tag A c.s c.b) (extract_set A c.s c.b) + o)
        rw [cover_base_extract]
      · rw [lineAt_set_ne _ v k _ hkv'] at hkv ⊢
        exact hc (extract_set A c.s c.b) (hj ▸ hidx') k hk hkv o ho
    · rw [List.set_eq_of_length_le (by omega)]
      exact hc (extract_set A c.s c.b) (hj ▸ hidx')
  · rw [Cache.setLine_sets_ne c _ v _ idx hj]
    exact hc idx hidx'

/-- If the sought address misses in a cache whose sets satisfy the
initial-segment invariant, no valid line covers the written range, so a RAM
change confined to that range (inside the address's block) preserves the
cache's consistency. -/
theorem Consist_frame_absent (c : Cache) (ram ram' : Ram) (A len v : Nat)
    (hframe : ∀ x, x < A ∨ A + len ≤ x → ram' x = ram x)
    (hin : A % 2 ^ c.b + len ≤ 2 ^ c.b)
    (hseg : ∀ idx, FirstSeg (c.sets idx))
    (hmiss : find_line c (extract_set A c.s c.b) (extract_tag A c.s c.b) =
      FindResult.miss v)
    (hc : Consist c ram) : Consist c ram' := by
  intro idx hidx
  refine SetConsist_frame c.s c.b idx (c.sets idx) ram ram' A len hframe hin hidx ?_
    (hc idx hidx)
  intro k hk hkv
  by_cases hj : idx = extract_set A c.s c.b
  · left
    rw [find_line_eq_list] at hmiss
    have := find_line_list_miss_no_match _ _ v (hseg (extract_set A c.s c.b)) hmiss
    rw [hj] at hk hkv ⊢
    exact this k hk hkv
  · right
    exact hj

/-- A byte covered by a line whose (tag, set) differs from the written
address's decode lies outside the written range (when the range fits inside
its block). -/
theorem untouched_byte (s b A len t idx o : Nat)
    (hidx : idx < 2 ^ s) (ho : o < 2 ^ b)
    (hin : A % 2 ^ b + len ≤ 2 ^ b)
    (hne : t ≠ extract_tag A s b ∨ idx ≠ extract_set A s b) :
    cover_base s b t idx + o < A ∨ A + len ≤ cover_base s b t idx + o := by
  by_contra hcon
  push_neg at hcon
  have hbbA : block_base A (2 ^ b) ≤ A ∧ A = block_base A (2 ^ b) + A % 2 ^ b := by
    unfold block_base
    have := Nat.mod_le A (2 ^ b)
    omega
  have hmem2 : cover_base s b (extract_tag A s b) (extract_set A s b) ≤
      cover_base s b t idx + o ∧
      cover_base s b t idx + o <
        cover_base s b (extract_tag A s b) (extract_set A s b) + 2 ^ b := by
    rw [cover_base_extract]
    omega
  exact cover_base_disjoint s b t idx (extract_tag A s b) (extract_set A s b)
    (cover_base s b t idx + o) hidx (extract_set_lt A s b) hne ⟨by omega, by omega⟩ hmem2

/-- Store path, L1-hit case: updating the hit line's bytes in place keeps
the cache consistent with the post-write RAM, given tag uniqueness. -/
theorem Consist_hit_update (c : Cache) (A : Nat) (data : List Nat) (ram ram' : Ram)
    (j : Nat)
    (hhit : find_line c (extract_set A c.s c.b) (extract_tag A c.s c.b) =
      FindResult.hit j)
    (hdup : GoodCache c)
    (hin : A % 2 ^ c.b + data.length ≤ 2 ^ c.b)
    (hframe : ∀ x, x < A ∨ A + data.length ≤ x → ram' x = ram x)
    (hmem : ∀ i, i < data.length → ram' (A + i) = data.getD i 0)
    (hc : Consist c ram) :
    Consist (c.setLine (extract_set A c.s c.b) j
      { (lineAt (c.sets (extract_set A c.s c.b)) j) with
        block := block_write (lineAt (c.sets (extract_set A c.s c.b)) j).block
          (A % 2 ^ c.b) data }) ram' := by
  have hfacts := find_line_list_hit _ _ j (by rw [← find_line_eq_list]; exact hhit)
  intro idx hidx
  have hidx' : idx < 2 ^ c.s := hidx
  show SetConsist c.s c.b idx ((c.setLine _ j _).sets idx) ram'
  by_cases hj : idx = extract_set A c.s c.b
  · rw [hj, Cache.setLine_sets_self]
    intro k hk hkv o ho
    rw [List.length_set] at hk
    by_cases hkj : k = j
    · rw [hkj, lineAt_set_self _ j _ hfacts.1] at hkv ⊢
      show block_write (lineAt (c.sets (extract_set A c.s c.b)) j).block
          (A % 2 ^ c.b) data o =
        ram' (cover_base c.s c.b (lineAt (c.sets (extract_set A c.s c.b)) j).tag
          (extract_set A c.s c.b) + o)
      rw [hfacts.2.2.1, cover_base_extract]
      have hA : A = block_base A (2 ^ c.b) + A % 2 ^ c.b := by
        unfold block_base
        have := Nat.mod_le A (2 ^ c.b)
        omega
      unfold block_write
      split_ifs with hr
      · have hoi : o - A % 2 ^ c.b < data.length := by omega
        have heq : block_base A (2 ^ c.b) + o = A + (o - A % 2 ^ c.b) := by omega
        rw [heq, hmem _ hoi]
      · have hold := hc (extract_set A c.s c.b) (hj ▸ hidx') j hfacts.1 hfacts.2.1 o ho
        rw [hfacts.2.2.1, cover_base_extract] at hold
        rw [hold]
        refine (hframe _ ?_).symm
        omega
    · rw [lineAt_set_ne _ j k _ hkj] at hkv ⊢
      have htagne : (lineAt (c.sets (extract_set A c.s c.b)) k).tag ≠
          extract_tag A c.s c.b := by
        intro he
        exact (hdup (extract_set A c.s c.b)).2 k hk j hfacts.1 hkj hkv hfacts.2.1
          (he.trans hfacts.2.2.1.symm)
      have hold := hc (extract_set A c.s c.b) (hj ▸ hidx') k hk hkv o ho
      rw [hold]
      exact (hframe _ (untouched_byte c.s c.b A data.length _ _ o
        (hj ▸ hidx') ho hin (Or.inl htagne))).symm
  · rw [Cache.setLine_sets_ne c _ j _ idx hj]
    exact SetConsist_frame c.s c.b idx _ ram ram' A data.length hframe hin hidx'
      (fun k hk hkv => Or.inr hj) (hc idx hidx')

/-- Store path, L2-miss case: the victim line is filled from a block read
(from `ramsrc`) and the written range is then overwritten with the store
data; the result is consistent with the post-write RAM `ram'`, provided
`ramsrc` agrees with `ram'` outside the written range. -/
theorem Consist_fill_store (c : Cache) (A : Nat) (data : List Nat)
    (ramsrc ram ram' : Ram) (w f n : Nat)
    (hmiss : find_line c (extract_set A c.s c.b) (extract_tag A c.s c.b) =
      FindResult.miss w)
    (hseg : ∀ idx, FirstSeg (c.sets idx))
    (hin : A % 2 ^ c.b + data.length ≤ 2 ^ c.b)
    (hsrc : ∀ x, x < A ∨ A + data.length ≤ x → ramsrc x = ram' x)
    (hframe : ∀ x, x < A ∨ A + data.length ≤ x → ram' x = ram x)
    (hmem : ∀ i, i < data.length → ram' (A + i) = data.getD i 0)
    (hc : Consist c ram) :
    Consist { (c.setLine (extract_set A c.s c.b) w
      { valid := true, tag := extract_tag A c.s c.b, fifo_counter := f,
        block := block_write (read_block_from_ram ramsrc A (2 ^ c.b))
          (A % 2 ^ c.b) data }) with fifo_time := n } ram' := by
  have hnm := find_line_list_miss_no_match _ _ w (hseg (extract_set A c.s c.b))
    (by rw [← find_line_eq_list]; exact hmiss)
  intro idx hidx
  have hidx' : idx < 2 ^ c.s := hidx
  show SetConsist c.s c.b idx ((c.setLine _ w _).sets idx) ram'
  by_cases hj : idx = extract_set A c.s c.b
  · rw [hj, Cache.setLine_sets_self]
    have hA : A = block_base A (2 ^ c.b) + A % 2 ^ c.b := by
      unfold block_base
      have := Nat.mod_le A (2 ^ c.b)
      omega
    have core : ∀ k, k < (c.sets (extract_set A c.s c.b)).length →
        (lineAt (c.sets (extract_set A c.s c.b)) k).valid = true →
        ∀ o, o < 2 ^ c.b →
        (lineAt (c.sets (extract_set A c.s c.b)) k).block o =
          ram' (cover_base c.s c.b (lineAt (c.sets (extract_set A c.s c.b)) k).tag
            (extract_set A c.s c.b) + o) := by
      intro k hk hkv o ho
      have hold := hc (extract_set A c.s c.b) (hj ▸ hidx') k hk hkv o ho
      rw [hold]
      exact (hframe _ (untouched_byte c.s c.b A data.length _ _ o
        (hj ▸ hidx') ho hin (Or.inl (hnm k hk hkv)))).symm
    by_cases hwlen : w < (c.sets (extract_set A c.s c.b)).length
    · intro k hk hkv o ho
      rw [List.length_set] at hk
      by_cases hkw : k = w
      · rw [hkw, lineAt_set_self _ w _ hwlen] at hkv ⊢
        show block_write (read_block_from_ram ramsrc A (2 ^ c.b)) (A % 2 ^ c.b) data o =
          ram' (cover_base c.s c.b (extract_tag A c.s c.b) (extract_set A c.s c.b) + o)
        rw [cover_base_extract]
        unfold block_write
        split_ifs with hr
        · have hoi : o - A % 2 ^ c.b < data.length := by omega
          have heq : block_base A (2 ^ c.b) + o = A + (o - A % 2 ^ c.b) := by omega
          rw [heq, hmem _ hoi]
        · show ramsrc (block_base A (2 ^ c.b) + o) = ram' (block_base A (2 ^ c.b) + o)
          apply hsrc
          omega
      · rw [lineAt_set_ne _ w k _ hkw] at hkv ⊢
        exact core k hk hkv o ho
    · rw [List.set_eq_of_length_le (by omega)]
      exact core
  · rw [Cache.setLine_sets_ne c _ w _ idx hj]
    exact SetConsist_frame c.s c.b idx _ ram ram' A data.length hframe hin hidx'
      (fun k hk hkv => Or.inr hj) (hc idx hidx')

/-! ### Preservation through one access -/

theorem load_Good (L1 L2 : Cache) (a : Nat) (ram : Ram) (s1 s2 : Stats)
    (hg1 : GoodCache L1) (hg2 : GoodCache L2) :
    GoodCache (access_load L1 L2 a ram s1 s2).L1 ∧
      GoodCache (access_load L1 L2 a ram s1 s2).L2 := by
  rcases hf1 : find_line L1 (extract_set a L1.s L1.b) (extract_tag a L1.s L1.b) with j | v
  · rw [access_load_hit_shape L1 L2 a ram s1 s2 j hf1]
    exact ⟨hg1, hg2⟩
  · rcases hf2 : find_line L2 (extract_set a L2.s L2.b) (extract_tag a L2.s L2.b) with j | w
    · rw [access_load_miss_hit_shape L1 L2 a ram s1 s2 v j hf1 hf2]
      exact ⟨fill_GoodCache L1 _ _ _ _ _ v hg1 hf1, hg2⟩
    · rw [access_load_miss_miss_shape L1 L2 a ram s1 s2 v w hf1 hf2]
      exact ⟨fill_GoodCache L1 _ _ _ _ _ v hg1 hf1,
        fill_GoodCache L2 _ _ _ _ _ w hg2 hf2⟩

theorem load_Consist_L1 (L1 L2 : Cache) (a : Nat) (ram : Ram) (s1 s2 : Stats)
    (h1 : Consist L1 ram) :
    Consist (access_load L1 L2 a ram s1 s2).L1 ram := by
  rcases hf1 : find_line L1 (extract_set a L1.s L1.b) (extract_tag a L1.s L1.b) with j | v
  · rw [access_load_hit_shape L1 L2 a ram s1 s2 j hf1]
    exact h1
  · rcases hf2 : find_line L2 (extract_set a L2.s L2.b) (extract_tag a L2.s L2.b) with j | w
    · rw [access_load_miss_hit_shape L1 L2 a ram s1 s2 v j hf1 hf2]
      exact fill_Consist L1 a L1.fifo_time (L1.fifo_time + 1) ram v h1
    · rw [access_load_miss_miss_shape L1 L2 a ram s1 s2 v w hf1 hf2]
      exact fill_Consist L1 a L1.fifo_time (L1.fifo_time + 1) ram v h1

theorem load_Consist_L2 (L1 L2 : Cache) (a : Nat) (ram : Ram) (s1 s2 : Stats)
    (h2 : Consist L2 ram) :
    Consist (access_load L1 L2 a ram s1 s2).L2 ram := by
  rcases hf1 : find_line L1 (extract_set a L1.s L1.b) (extract_tag a L1.s L1.b) with j | v
  · rw [access_load_hit_shape L1 L2 a ram s1 s2 j hf1]
    exact h2
  · rcases hf2 : find_line L2 (extract_set a L2.s L2.b) (extract_tag a L2.s L2.b) with j | w
    · rw [access_load_miss_hit_shape L1 L2 a ram s1 s2 v j hf1 hf2]
      exact h2
    · rw [access_load_miss_miss_shape L1 L2 a ram s1 s2 v w hf1 hf2]
      exact fill_Consist L2 a L2.fifo_time (L2.fifo_time + 1) ram w h2

theorem access_load_geom (L1 L2 : Cache) (a : Nat) (ram : Ram) (s1 s2 : Stats) :
    (access_load L1 L2 a ram s1 s2).L1.s = L1.s ∧
    (access_load L1 L2 a ram s1 s2).L1.b = L1.b ∧
    (access_load L1 L2 a ram s1 s2).L2.s = L2.s ∧
    (access_load L1 L2 a ram s1 s2).L2.b = L2.b := by
  rcases hf1 : find_line L1 (extract_set a L1.s L1.b) (extract_tag a L1.s L1.b) with j | v
  · rw [access_load_hit_shape L1 L2 a ram s1 s2 j hf1]
    exact ⟨rfl, rfl, rfl, rfl⟩
  · rcases hf2 : find_line L2 (extract_set a L2.s L2.b) (extract_tag a L2.s L2.b) with j | w
    · rw [access_load_miss_hit_shape L1 L2 a ram s1 s2 v j hf1 hf2]
      exact ⟨rfl, rfl, rfl, rfl⟩
    · rw [access_load_miss_miss_shape L1 L2 a ram s1 s2 v w hf1 hf2]
      exact ⟨rfl, rfl, rfl, rfl⟩

theorem store_Good (L1 L2 : Cache) (a : Nat) (data : List Nat) (ram : Ram)
    (s1 s2 : Stats) (hg1 : GoodCache L1) (hg2 : GoodCache L2) :
    GoodCache (access_store L1 L2 a data ram s1 s2).L1 ∧
      GoodCache (access_store L1 L2 a data ram s1 s2).L2 := by
  rcases hf1 : find_line L1 (extract_set a L1.s L1.b) (extract_tag a L1.s L1.b) with j | v
  · rcases hf2 : find_line L2 (extract_set a L2.s L2.b) (extract_tag a L2.s L2.b) with j2 | w
    · rw [access_store_hit_hit_shape L1 L2 a data ram s1 s2 j j2 hf1 hf2]
      exact ⟨upd_GoodCache L1 _ j _ rfl rfl hg1, upd_GoodCache L2 _ j2 _ rfl rfl hg2⟩
    · rw [access_store_hit_miss_shape L1 L2 a data ram s1 s2 j w hf1 hf2]
      refine ⟨upd_GoodCache L1 _ j _ rfl rfl hg1, ?_⟩
      exact fill_GoodCache L2 _ _ _ _ _ w hg2 hf2
  · rcases hf2 : find_line L2 (extract_set a L2.s L2.b) (extract_tag a L2.s L2.b) with j2 | w
    · rw [access_store_miss_hit_shape L1 L2 a data ram s1 s2 v j2 hf1 hf2]
      exact ⟨hg1, upd_GoodCache L2 _ j2 _ rfl rfl hg2⟩
    · rw [access_store_miss_miss_shape L1 L2 a data ram s1 s2 v w hf1 hf2]
      exact ⟨hg1, fill_GoodCache L2 _ _ _ _ _ w hg2 hf2⟩

theorem access_store_geom (L1 L2 : Cache) (a : Nat) (data : List Nat) (ram : Ram)
    (s1 s2 : Stats) :
    (access_store L1 L2 a data ram s1 s2).L1.s = L1.s ∧
    (access_store L1 L2 a data ram s1 s2).L1.b = L1.b ∧
    (access_store L1 L2 a data ram s1 s2).L2.s = L2.s ∧
    (access_store L1 L2 a data ram s1 s2).L2.b = L2.b := by
  rcases hf1 : find_line L1 (extract_set a L1.s L1.b) (extract_tag a L1.s L1.b) with j | v
  · rcases hf2 : find_line L2 (extract_set a L2.s L2.b) (extract_tag a L2.s L2.b) with j2 | w
    · rw [access_store_hit_hit_shape L1 L2 a data ram s1 s2 j j2 hf1 hf2]
      exact ⟨rfl, rfl, rfl, rfl⟩
    · rw [access_store_hit_miss_shape L1 L2 a data ram s1 s2 j w hf1 hf2]
      exact ⟨rfl, rfl, rfl, rfl⟩
  · rcases hf2 : find_line L2 (extract_set a L2.s L2.b) (extract_tag a L2.s L2.b) with j2 | w
    · rw [access_store_miss_hit_shape L1 L2 a data ram s1 s2 v j2 hf1 hf2]
      exact ⟨rfl, rfl, rfl, rfl⟩
    · rw [access_store_miss_miss_shape L1 L2 a data ram s1 s2 v w hf1 hf2]
      exact ⟨rfl, rfl, rfl, rfl⟩

/-- The store's RAM output is always the single write-through, independent
of the hit/miss outcome at either level. -/
theorem store_ram_eq (L1 L2 : Cache) (a : Nat) (data : List Nat) (ram : Ram)
    (s1 s2 : Stats) :
    (access_store L1 L2 a data ram s1 s2).ram =
      write_block_to_ram ram a data (2 ^ L1.b) ∧
    (access_store L1 L2 a data ram s1 s2).writes = 1 ∧
    (access_store L1 L2 a data ram s1 s2).res.wrote_to_ram = true := by
  rcases hf1 : find_line L1 (extract_set a L1.s L1.b) (extract_tag a L1.s L1.b) with j | v
  · rcases hf2 : find_line L2 (extract_set a L2.s L2.b) (extract_tag a L2.s L2.b) with j2 | w
    · rw [access_store_hit_hit_shape L1 L2 a data ram s1 s2 j j2 hf1 hf2]
      exact ⟨rfl, rfl, rfl⟩
    · rw [access_store_hit_miss_shape L1 L2 a data ram s1 s2 j w hf1 hf2]
      exact ⟨rfl, rfl, rfl⟩
  · rcases hf2 : find_line L2 (extract_set a L2.s L2.b) (extract_tag a L2.s L2.b) with j2 | w
    · rw [access_store_miss_hit_shape L1 L2 a data ram s1 s2 v j2 hf1 hf2]
      exact ⟨rfl, rfl, rfl⟩
    · rw [access_store_miss_miss_shape L1 L2 a data ram s1 s2 v w hf1 hf2]
      exact ⟨rfl, rfl, rfl⟩

theorem store_Consist (L1 L2 : Cache) (a : Nat) (data : List Nat) (ram : Ram)
    (s1 s2 : Stats) (hg1 : GoodCache L1) (hg2 : GoodCache L2)
    (hin1 : a % 2 ^ L1.b + data.length ≤ 2 ^ L1.b)
    (hin2 : a % 2 ^ L2.b + data.length ≤ 2 ^ L2.b)
    (h1 : Consist L1 ram) (h2 : Consist L2 ram) :
    Consist (access_store L1 L2 a data ram s1 s2).L1
        (access_store L1 L2 a data ram s1 s2).ram ∧
      Consist (access_store L1 L2 a data ram s1 s2).L2
        (access_store L1 L2 a data ram s1 s2).ram := by
  have hframe : ∀ x, x < a ∨ a + data.length ≤ x →
      write_block_to_ram ram a data (2 ^ L1.b) x = ram x :=
    fun x hx => write_block_frame ram a data (2 ^ L1.b) x hx
  have hmem : ∀ i, i < data.length →
      write_block_to_ram ram a data (2 ^ L1.b) (a + i) = data.getD i 0 :=
    fun i hi => write_block_mem ram a data (2 ^ L1.b) i hin1 hi
  rcases hf1 : find_line L1 (extract_set a L1.s L1.b) (extract_tag a L1.s L1.b) with j | v
  · rcases hf2 : find_line L2 (extract_set a L2.s L2.b) (extract_tag a L2.s L2.b) with j2 | w
    · rw [access_store_hit_hit_shape L1 L2 a data ram s1 s2 j j2 hf1 hf2]
      exact ⟨Consist_hit_update L1 a data ram _ j hf1 hg1 hin1 hframe hmem h1,
        Consist_hit_update L2 a data ram _ j2 hf2 hg2 hin2 hframe hmem h2⟩
    · rw [access_store_hit_miss_shape L1 L2 a data ram s1 s2 j w hf1 hf2]
      refine ⟨Consist_hit_update L1 a data ram _ j hf1 hg1 hin1 hframe hmem h1, ?_⟩
      exact Consist_fill_store L2 a data ram ram _ w L2.fifo_time (L2.fifo_time + 1)
        hf2 (fun idx => (hg2 idx).1) hin2 (fun x hx => (hframe x hx).symm) hframe hmem h2
  · rcases hf2 : find_line L2 (extract_set a L2.s L2.b) (extract_tag a L2.s L2.b) with j2 | w
    · rw [access_store_miss_hit_shape L1 L2 a data ram s1 s2 v j2 hf1 hf2]
      refine ⟨?_, Consist_hit_update L2 a data ram _ j2 hf2 hg2 hin2 hframe hmem h2⟩
      exact Consist_frame_absent L1 ram _ a data.length v hframe hin1
        (fun idx => (hg1 idx).1) hf1 h1
    · rw [access_store_miss_miss_shape L1 L2 a data ram s1 s2 v w hf1 hf2]
      refine ⟨?_, ?_⟩
      · exact Consist_frame_absent L1 ram _ a data.length v hframe hin1
          (fun idx => (hg1 idx).1) hf1 h1
      · exact Consist_fill_store L2 a data (write_block_to_ram ram a data (2 ^ L1.b))
          ram _ w L2.fifo_time (L2.fifo_time + 1) hf2 (fun idx => (hg2 idx).1) hin2
          (fun x _ => rfl) hframe hmem h2

/-! ### Whole-simulator invariants over the replay loop -/

theorem lineAt_replicate (E k : Nat) (x : CacheLine) (h : k < E) :
    lineAt (List.replicate E x) k = x := by
  induction E generalizing k with
  | zero => omega
  | succ E ih =>
    cases k with
    | zero => rfl
    | succ k =>
      rw [List.replicate_succ]
      simpa [lineAt_cons_succ] using ih k (by omega)

theorem create_cache_sets (s E b idx : Nat) :
    (create_cache s E b).sets idx =
      List.replicate E { valid := false, tag := 0, fifo_counter := 0,
                         block := fun _ => 0 } := rfl

theorem create_cache_Good (s E b : Nat) : GoodCache (create_cache s E b) := by
  intro idx
  constructor
  · intro j hj i hij hjv
    rw [create_cache_sets] at hj hjv
    rw [lineAt_replicate E j _ (by simpa using hj)] at hjv
    cases hjv
  · intro i hi j hj hij hiv
    rw [create_cache_sets] at hi hiv
    rw [lineAt_replicate E i _ (by simpa using hi)] at hiv
    cases hiv

theorem create_cache_Consist (s E b : Nat) (ram : Ram) :
    Consist (create_cache s E b) ram := by
  intro idx hidx k hk hkv
  rw [create_cache_sets] at hk hkv
  rw [lineAt_replicate E k _ (by simpa using hk)] at hkv
  cases hkv

/-- Tag discipline for all three cache instances. -/
def GoodState (st : SimState) : Prop :=
  GoodCache st.L1D ∧ GoodCache st.L1I ∧ GoodCache st.L2

/-- RAM consistency of the two caches a STORE updates (the L1-instruction
cache is not kept consistent by the code, see the C9 analysis). -/
def ConsistState (st : SimState) : Prop :=
  Consist st.L1D st.ram ∧ Consist st.L2 st.ram

/-- Well-formedness of one trace operation for RAM consistency: its data
range stays inside a single block at both the L1 and the L2 granularity
(automatic for LOAD/INST, whose data is empty). -/
def OpWF (l1b l2b : Nat) (op : TraceOp) : Prop :=
  op.address % 2 ^ l1b + op.data.length ≤ 2 ^ l1b ∧
  op.address % 2 ^ l2b + op.data.length ≤ 2 ^ l2b

instance (l1b l2b : Nat) (op : TraceOp) : Decidable (OpWF l1b l2b op) := by
  unfold OpWF
  infer_instance

theorem stepOp_Good (st : SimState) (op : TraceOp) (h : GoodState st) :
    GoodState (stepOp st op) := by
  obtain ⟨hD, hI, h2⟩ := h
  cases hop : op.op with
  | load =>
    simp only [stepOp, hop]
    have h' := load_Good st.L1D st.L2 op.address st.ram st.sD st.s2 hD h2
    exact ⟨h'.1, hI, h'.2⟩
  | inst =>
    simp only [stepOp, hop]
    have h' := load_Good st.L1I st.L2 op.address st.ram st.sI st.s2 hI h2
    exact ⟨hD, h'.1, h'.2⟩
  | store =>
    simp only [stepOp, hop]
    have h' := store_Good st.L1D st.L2 op.address op.data st.ram st.sD st.s2 hD h2
    exact ⟨h'.1, hI, h'.2⟩
  | modify =>
    simp only [stepOp, hop, access_modify]
    have hlo := load_Good st.L1D st.L2 op.address st.ram st.sD st.s2 hD h2
    have hso := store_Good (access_load st.L1D st.L2 op.address st.ram st.sD st.s2).L1
      (access_load st.L1D st.L2 op.address st.ram st.sD st.s2).L2 op.address op.data
      st.ram (access_load st.L1D st.L2 op.address st.ram st.sD st.s2).s1
      (access_load st.L1D st.L2 op.address st.ram st.sD st.s2).s2 hlo.1 hlo.2
    exact ⟨hso.1, hI, hso.2⟩

theorem stepOp_geom (st : SimState) (op : TraceOp) :
    (stepOp st op).L1D.s = st.L1D.s ∧ (stepOp st op).L1D.b = st.L1D.b ∧
    (stepOp st op).L1I.s = st.L1I.s ∧ (stepOp st op).L1I.b = st.L1I.b ∧
    (stepOp st op).L2.s = st.L2.s ∧ (stepOp st op).L2.b = st.L2.b := by
  cases hop : op.op with
  | load =>
    simp only [stepOp, hop]
    have h' := access_load_geom st.L1D st.L2 op.address st.ram st.sD st.s2
    exact ⟨h'.1, h'.2.1, trivial, trivial, h'.2.2.1, h'.2.2.2⟩
  | inst =>
    simp only [stepOp, hop]
    have h' := access_load_geom st.L1I st.L2 op.address st.ram st.sI st.s2
    exact ⟨trivial, trivial, h'.1, h'.2.1, h'.2.2.1, h'.2.2.2⟩
  | store =>
    simp only [stepOp, hop]
    have h' := access_store_geom st.L1D st.L2 op.address op.data st.ram st.sD st.s2
    exact ⟨h'.1, h'.2.1, trivial, trivial, h'.2.2.1, h'.2.2.2⟩
  | modify =>
    simp only [stepOp, hop, access_modify]
    have h1 := access_load_geom st.L1D st.L2 op.address st.ram st.sD st.s2
    have h2 := access_store_geom (access_load st.L1D st.L2 op.address st.ram st.sD st.s2).L1
      (access_load st.L1D st.L2 op.address st.ram st.sD st.s2).L2 op.address op.data
      st.ram (access_load st.L1D st.L2 op.address st.ram st.sD st.s2).s1
      (access_load st.L1D st.L2 op.address st.ram st.sD st.s2).s2
    exact ⟨h2.1.trans h1.1, h2.2.1.trans h1.2.1, trivial, trivial,
      h2.2.2.1.trans h1.2.2.1, h2.2.2.2.trans h1.2.2.2⟩

theorem stepOp_Consist (st : SimState) (op : TraceOp) (hg : GoodState st)
    (hc : ConsistState st) (hwf : OpWF st.L1D.b st.L2.b op) :
    ConsistState (stepOp st op) := by
  obtain ⟨hD, hI, h2⟩ := hg
  obtain ⟨hcD, hc2⟩ := hc
  cases hop : op.op with
  | load =>
    simp only [stepOp, hop]
    exact ⟨load_Consist_L1 st.L1D st.L2 op.address st.ram st.sD st.s2 hcD,
      load_Consist_L2 st.L1D st.L2 op.address st.ram st.sD st.s2 hc2⟩
  | inst =>
    simp only [stepOp, hop]
    exact ⟨hcD, load_Consist_L2 st.L1I st.L2 op.address st.ram st.sI st.s2 hc2⟩
  | store =>
    simp only [stepOp, hop]
    exact store_Consist st.L1D st.L2 op.address op.data st.ram st.sD st.s2 hD h2
      hwf.1 hwf.2 hcD hc2
  | modify =>
    simp only [stepOp, hop, access_modify]
    have hlo := load_Good st.L1D st.L2 op.address st.ram st.sD st.s2 hD h2
    have hgeom := access_load_geom st.L1D st.L2 op.address st.ram st.sD st.s2
    have hc1' := load_Consist_L1 st.L1D st.L2 op.address st.ram st.sD st.s2 hcD
    have hc2' := load_Consist_L2 st.L1D st.L2 op.address st.ram st.sD st.s2 hc2
    refine store_Consist (access_load st.L1D st.L2 op.address st.ram st.sD st.s2).L1
      (access_load st.L1D st.L2 op.address st.ram st.sD st.s2).L2 op.address op.data
      st.ram (access_load st.L1D st.L2 op.address st.ram st.sD st.s2).s1
      (access_load st.L1D st.L2 op.address st.ram st.sD st.s2).s2 hlo.1 hlo.2 ?_ ?_
      hc1' hc2'
    · rw [hgeom.2.1]
      exact hwf.1
    · rw [hgeom.2.2.2]
      exact hwf.2

theorem replay_Good (ops : List TraceOp) (st : SimState) (h : GoodState st) :
    GoodState (replay st ops) := by
  induction ops generalizing st with
  | nil => exact h
  | cons op ops ih => exact ih (stepOp st op) (stepOp_Good st op h)

theorem replay_Consist (ops : List TraceOp) (st : SimState) (hg : GoodState st)
    (hc : ConsistState st)
    (hwf : ∀ op ∈ ops, OpWF st.L1D.b st.L2.b op) :
    ConsistState (replay st ops) := by
  induction ops generalizing st with
  | nil => exact hc
  | cons op ops ih =>
    have hgeom := stepOp_geom st op
    refine ih (stepOp st op) (stepOp_Good st op hg)
      (stepOp_Consist st op hg hc (hwf op (by simp))) ?_
    intro op' hop'
    rw [hgeom.2.1, hgeom.2.2.2.2.2]
    exact hwf op' (by simp [hop'])

theorem initState_Good (l1s l1E l1b l2s l2E l2b : Nat) (ram : Ram) :
    GoodState (initState l1s l1E l1b l2s l2E l2b ram) :=
  ⟨create_cache_Good l1s l1E l1b, create_cache_Good l1s l1E l1b,
    create_cache_Good l2s l2E l2b⟩

theorem initState_Consist (l1s l1E l1b l2s l2E l2b : Nat) (ram : Ram) :
    ConsistState (initState l1s l1E l1b l2s l2E l2b ram) :=
  ⟨create_cache_Consist l1s l1E l1b ram, create_cache_Consist l2s l2E l2b ram⟩

/-! ### Decidability of the set invariants (for concrete evaluation) -/

instance (L : List CacheLine) : Decidable (FirstSeg L) := by
  unfold FirstSeg
  infer_instance

set_option synthInstance.maxSize 1024 in
instance (L : List CacheLine) : Decidable (NoDupTags L) := by
  unfold NoDupTags
  infer_instance

/-- After the miss victim of a cache is filled with the sought tag, looking
the same address up again hits the filled line. -/
theorem fill_cache_find_hit (c : Cache) (a f n : Nat) (blk : Nat → Nat) (v : Nat)
    (hlen : 0 < (c.sets (extract_set a c.s c.b)).length)
    (hm : find_line c (extract_set a c.s c.b) (extract_tag a c.s c.b) =
      FindResult.miss v) :
    find_line { (c.setLine (extract_set a c.s c.b) v
        { valid := true, tag := extract_tag a c.s c.b, fifo_counter := f,
          block := blk }) with fifo_time := n }
      (extract_set a c.s c.b) (extract_tag a c.s c.b) = FindResult.hit v := by
  rw [find_line_eq_list]
  show find_line_list _ ((c.setLine (extract_set a c.s c.b) v _).sets
    (extract_set a c.s c.b)) = _
  rw [Cache.setLine_sets_self]
  exact find_line_list_fill_hit _ _ v f blk hlen
    (by rw [← find_line_eq_list]; exact hm)

/-! ### The claims -/

/-- C1 (amended).  Full characterization of the line resolver: a hit names
a valid matching line all of whose predecessors are valid and
non-matching (so a match hidden behind an invalid line is NOT found — the
scan stops at the first invalid line); a miss victim is either the first
invalid line in scan order (all earlier lines valid and non-matching), or,
when the whole set is valid and non-matching, the line with the smallest
fifo counter (first such index on ties). -/
theorem find_line_resolver_spec (c : Cache) (set_index t : Nat)
    (hE : 0 < (c.sets set_index).length) :
    (∀ j, find_line c set_index t = FindResult.hit j →
       j < (c.sets set_index).length ∧
       (lineAt (c.sets set_index) j).valid = true ∧
       (lineAt (c.sets set_index) j).tag = t ∧
       ∀ k, k < j → (lineAt (c.sets set_index) k).valid = true ∧
         (lineAt (c.sets set_index) k).tag ≠ t) ∧
    (∀ v, find_line c set_index t = FindResult.miss v →
       ((lineAt (c.sets set_index) v).valid = false ∧
          v < (c.sets set_index).length ∧
          ∀ k, k < v → (lineAt (c.sets set_index) k).valid = true ∧
            (lineAt (c.sets set_index) k).tag ≠ t) ∨
       ((∀ k, k < (c.sets set_index).length →
            (lineAt (c.sets set_index) k).valid = true ∧
            (lineAt (c.sets set_index) k).tag ≠ t) ∧
          v < (c.sets set_index).length ∧
          (∀ k, k < (c.sets set_index).length →
            (lineAt (c.sets set_index) v).fifo_counter ≤
              (lineAt (c.sets set_index) k).fifo_counter) ∧
          (∀ k, k < v →
            (lineAt (c.sets set_index) v).fifo_counter <
              (lineAt (c.sets set_index) k).fifo_counter))) := by
  constructor
  · intro j hj
    exact find_line_list_hit t (c.sets set_index) j
      (by rw [← find_line_eq_list]; exact hj)
  · intro v hv
    have hv' : find_line_list t (c.sets set_index) = FindResult.miss v := by
      rw [← find_line_eq_list]
      exact hv
    rcases find_line_list_miss t _ v hv' with ⟨h1, h2, h3⟩ | hall
    · exact Or.inl ⟨h2, h1, h3⟩
    · obtain ⟨hlt, hmin, hstrict⟩ := find_line_list_miss_oldest t _ v hE hall hv'
      exact Or.inr ⟨hall, hlt, hmin, hstrict⟩

/-- C1 counterexample to the claim as stated: with an invalid line at index
0 and a valid matching line at index 1, `find_line` reports a miss (victim
0) even though a valid line with the sought tag exists in the set. -/
theorem find_line_resolver_spec_cex :
    find_line
      { s := 0, E := 2, b := 0, fifo_time := 0,
        sets := fun _ =>
          [{ valid := false, tag := 0, fifo_counter := 0, block := fun _ => 0 },
           { valid := true, tag := 5, fifo_counter := 0, block := fun _ => 0 }] }
      0 5 = FindResult.miss 0 ∧
    (lineAt
      (({ s := 0, E := 2, b := 0, fifo_time := 0,
          sets := fun _ =>
            [{ valid := false, tag := 0, fifo_counter := 0, block := fun _ => 0 },
             { valid := true, tag := 5, fifo_counter := 0, block := fun _ => 0 }] } :
          Cache).sets 0) 1).valid = true ∧
    (lineAt
      (({ s := 0, E := 2, b := 0, fifo_time := 0,
          sets := fun _ =>
            [{ valid := false, tag := 0, fifo_counter := 0, block := fun _ => 0 },
             { valid := true, tag := 5, fifo_counter := 0, block := fun _ => 0 }] } :
          Cache).sets 0) 1).tag = 5 := by
  exact ⟨rfl, rfl, rfl⟩

/-- C1 witness: the characterization applied to a freshly created cache,
where the miss victim is line 0, which is indeed invalid. -/
theorem find_line_resolver_spec_witness :
    0 < ((create_cache 1 2 4).sets 0).length ∧
    (lineAt ((create_cache 1 2 4).sets 0) 0).valid = false := by
  have h := find_line_resolver_spec (create_cache 1 2 4) 0 7 (by decide)
  have hm := h.2 0 (by decide)
  rcases hm with ⟨hinv, _, _⟩ | ⟨hall, _, _, _⟩
  · exact ⟨by decide, hinv⟩
  · exact absurd (hall 0 (by decide)).1 (by decide)

/-- C3: the load path records an L1 eviction in the per-access result even
when the victim line was invalid — `result->l1_evict = 1` at main.c:393 is
outside the `if (valid)` guard, while the eviction counter (correctly)
stays at zero.  Evaluated at a fresh cache: the miss victim (line 0 of the
resolved set) is invalid, yet `res.l1_evict` is set. -/
theorem load_result_l1_evict_bug :
    find_line (create_cache 1 2 4) (extract_set 16 1 4) (extract_tag 16 1 4) =
      FindResult.miss 0 ∧
    (lineAt ((create_cache 1 2 4).sets (extract_set 16 1 4)) 0).valid = false ∧
    (access_load (create_cache 1 2 4) (create_cache 2 2 4) 16 (fun _ => 0)
      {} {}).res.l1_miss = true ∧
    (access_load (create_cache 1 2 4) (create_cache 2 2 4) 16 (fun _ => 0)
      {} {}).res.l1_evict = true ∧
    (access_load (create_cache 1 2 4) (create_cache 2 2 4) 16 (fun _ => 0)
      {} {}).s1.evictions = 0 := by
  exact ⟨rfl, rfl, rfl, rfl, rfl⟩

/-- C4: tag uniqueness is a reachable-state invariant: replaying any trace
from freshly created caches leaves every set of all three cache instances
with at most one valid line per tag. -/
theorem tag_uniqueness_reachable (l1s l1E l1b l2s l2E l2b : Nat) (ram : Ram)
    (ops : List TraceOp) :
    (∀ idx, NoDupTags
      ((replay (initState l1s l1E l1b l2s l2E l2b ram) ops).L1D.sets idx)) ∧
    (∀ idx, NoDupTags
      ((replay (initState l1s l1E l1b l2s l2E l2b ram) ops).L1I.sets idx)) ∧
    (∀ idx, NoDupTags
      ((replay (initState l1s l1E l1b l2s l2E l2b ram) ops).L2.sets idx)) := by
  have h := replay_Good ops (initState l1s l1E l1b l2s l2E l2b ram)
    (initState_Good l1s l1E l1b l2s l2E l2b ram)
  exact ⟨fun idx => (h.1 idx).2, fun idx => (h.2.1 idx).2, fun idx => (h.2.2 idx).2⟩

/-- C5: a STORE that misses in L1 leaves the entire L1 cache state (every
line's valid bit, tag, fifo counter and block bytes, and the fifo clock)
unchanged — no-write-allocate. -/
theorem store_miss_leaves_L1_unchanged (L1 L2 : Cache) (a : Nat) (data : List Nat)
    (ram : Ram) (s1 s2 : Stats)
    (h : (access_store L1 L2 a data ram s1 s2).res.l1_miss = true) :
    (access_store L1 L2 a data ram s1 s2).L1 = L1 := by
  rcases hf1 : find_line L1 (extract_set a L1.s L1.b) (extract_tag a L1.s L1.b)
    with j | v
  · rcases hf2 : find_line L2 (extract_set a L2.s L2.b) (extract_tag a L2.s L2.b)
      with j2 | w
    · rw [access_store_hit_hit_shape L1 L2 a data ram s1 s2 j j2 hf1 hf2] at h
      simp at h
    · rw [access_store_hit_miss_shape L1 L2 a data ram s1 s2 j w hf1 hf2] at h
      simp at h
  · rcases hf2 : find_line L2 (extract_set a L2.s L2.b) (extract_tag a L2.s L2.b)
      with j2 | w
    · rw [access_store_miss_hit_shape L1 L2 a data ram s1 s2 v j2 hf1 hf2]
    · rw [access_store_miss_miss_shape L1 L2 a data ram s1 s2 v w hf1 hf2]

/-- C5 witness: a store to a fresh (all-invalid) L1 misses and leaves L1
untouched. -/
theorem store_miss_leaves_L1_unchanged_witness :
    (access_store (create_cache 1 2 4) (create_cache 2 2 4) 16 [1] (fun _ => 0)
      {} {}).res.l1_miss = true ∧
    (access_store (create_cache 1 2 4) (create_cache 2 2 4) 16 [1] (fun _ => 0)
      {} {}).L1 = create_cache 1 2 4 :=
  ⟨by decide,
    store_miss_leaves_L1_unchanged (create_cache 1 2 4) (create_cache 2 2 4) 16 [1]
      (fun _ => 0) {} {} (by decide)⟩

/-- C7: the backing-store write preserves every byte outside the written
range `[address, address + len(data))`, including the other bytes of the
containing block (they are read and written back unchanged). -/
theorem write_through_frame (ram : Ram) (address : Nat) (data : List Nat)
    (block_size x : Nat) (hx : x < address ∨ address + data.length ≤ x) :
    write_block_to_ram ram address data block_size x = ram x :=
  write_block_frame ram address data block_size x hx

/-- C7 witness: a byte below the written range is unchanged. -/
theorem write_through_frame_witness :
    ((2 : Nat) < 5 ∨ 5 + ([1, 2] : List Nat).length ≤ 2) ∧
    write_block_to_ram (fun _ => 7) 5 [1, 2] 16 2 = 7 :=
  ⟨Or.inl (by decide),
    write_through_frame (fun _ => 7) 5 [1, 2] 16 2 (Or.inl (by decide))⟩

/-- C10: `write_block_to_ram` copies the block through a fixed 64-byte
stack buffer, but `create_cache` accepts any block-offset width; for any
`b > 6` the constructed block size exceeds 64 and the `fread`/`fwrite` of
`block_size` bytes touches buffer index `block_size - 1 ≥ 64`, out of
bounds. -/
theorem write_buffer_overflow_geom (sN E b : Nat) (hb : 6 < b)
    (address num_bytes : Nat) :
    temp_block_len < (create_cache sN E b).B ∧
    ((create_cache sN E b).B - 1) ∈
      temp_block_accesses address num_bytes ((create_cache sN E b).B) ∧
    temp_block_len ≤ (create_cache sN E b).B - 1 := by
  have hB : (create_cache sN E b).B = 2 ^ b := rfl
  have h128 : 2 ^ 7 ≤ 2 ^ b := Nat.pow_le_pow_right (by omega) hb
  have h64 : (64 : Nat) < 2 ^ b := by omega
  refine ⟨?_, ?_, ?_⟩
  · rw [hB]
    exact h64
  · rw [hB]
    unfold temp_block_accesses
    have hmem : 2 ^ b - 1 ∈ List.range (2 ^ b) := List.mem_range.mpr (by omega)
    exact List.mem_append_left _ (List.mem_append_left _ hmem)
  · rw [hB]
    unfold temp_block_len
    omega

/-- C10 witness: at `b = 7` the block size is 128 and buffer index 127 is
accessed. -/
theorem write_buffer_overflow_geom_witness :
    6 < 7 ∧
    (temp_block_len < (create_cache 0 1 7).B ∧
      ((create_cache 0 1 7).B - 1) ∈
        temp_block_accesses 0 0 ((create_cache 0 1 7).B) ∧
      temp_block_len ≤ (create_cache 0 1 7).B - 1) :=
  ⟨by decide, write_buffer_overflow_geom 0 1 7 (by decide) 0 0⟩

/-- C2 (amended): every STORE (and the store phase of every MODIFY) calls
the backing-store write exactly once and sets `wrote_to_ram`, whatever the
hit/miss outcome at either level; and when the written range stays inside
the address's L1 block, the backing store's bytes at the range equal the
written data afterwards.  (The write is truncated at the L1-block end, see
the counterexample.) -/
theorem store_write_through (L1 L2 : Cache) (a : Nat) (data : List Nat) (ram : Ram)
    (s1 s2 : Stats) :
    (access_store L1 L2 a data ram s1 s2).writes = 1 ∧
    (access_store L1 L2 a data ram s1 s2).res.wrote_to_ram = true ∧
    (access_modify L1 L2 a data ram s1 s2).writes = 1 ∧
    (access_modify L1 L2 a data ram s1 s2).store_res.wrote_to_ram = true ∧
    (a % 2 ^ L1.b + data.length ≤ 2 ^ L1.b →
      (∀ i, i < data.length →
        (access_store L1 L2 a data ram s1 s2).ram (a + i) = data.getD i 0) ∧
      (∀ i, i < data.length →
        (access_modify L1 L2 a data ram s1 s2).ram (a + i) = data.getD i 0)) := by
  have hs := store_ram_eq L1 L2 a data ram s1 s2
  have hgeom := access_load_geom L1 L2 a ram s1 s2
  have hms := store_ram_eq (access_load L1 L2 a ram s1 s2).L1
    (access_load L1 L2 a ram s1 s2).L2 a data ram
    (access_load L1 L2 a ram s1 s2).s1 (access_load L1 L2 a ram s1 s2).s2
  refine ⟨hs.2.1, hs.2.2, hms.2.1, hms.2.2, ?_⟩
  intro hin
  constructor
  · intro i hi
    rw [show (access_store L1 L2 a data ram s1 s2).ram =
      write_block_to_ram ram a data (2 ^ L1.b) from hs.1]
    exact write_block_mem ram a data (2 ^ L1.b) i hin hi
  · intro i hi
    rw [show (access_modify L1 L2 a data ram s1 s2).ram =
      write_block_to_ram ram a data (2 ^ (access_load L1 L2 a ram s1 s2).L1.b)
      from hms.1]
    rw [hgeom.2.1]
    exact write_block_mem ram a data (2 ^ L1.b) i hin hi

/-- C2 counterexample to the claim as stated: a 2-byte store at offset 15
of a 16-byte L1 block is truncated at the block end — the byte at
`address + 1` (the next block's first byte) is NOT updated, so the backing
store does not equal the written data over the whole range. -/
theorem store_write_through_cex :
    (access_store (create_cache 1 2 4) (create_cache 2 2 4) 15 [170, 187]
      (fun _ => 0) {} {}).res.wrote_to_ram = true ∧
    1 < ([170, 187] : List Nat).length ∧
    (access_store (create_cache 1 2 4) (create_cache 2 2 4) 15 [170, 187]
      (fun _ => 0) {} {}).ram (15 + 1) ≠ ([170, 187] : List Nat).getD 1 0 := by
  exact ⟨rfl, by decide, by decide⟩

/-- C2 witness: an in-block one-byte store lands in the backing store. -/
theorem store_write_through_witness :
    0 % 2 ^ (create_cache 1 2 4).b + ([9] : List Nat).length ≤
      2 ^ (create_cache 1 2 4).b ∧
    (0 : Nat) < ([9] : List Nat).length ∧
    (access_store (create_cache 1 2 4) (create_cache 2 2 4) 0 [9] (fun _ => 0)
      {} {}).ram (0 + 0) = ([9] : List Nat).getD 0 0 := by
  refine ⟨by decide, by decide, ?_⟩
  exact ((store_write_through (create_cache 1 2 4) (create_cache 2 2 4) 0 [9]
    (fun _ => 0) {} {}).2.2.2.2 (by decide)).1 0 (by decide)

/-- C6: a LOAD or INST that misses in L1 ends with exactly one valid L1
line carrying the requested tag in the requested set — the chosen victim —
whatever the L2 outcome was. -/
theorem load_fills_exactly_one_L1_line (L1 L2 : Cache) (a : Nat) (ram : Ram)
    (s1 s2 : Stats) (v : Nat)
    (hseg : FirstSeg (L1.sets (extract_set a L1.s L1.b)))
    (hlen : 0 < (L1.sets (extract_set a L1.s L1.b)).length)
    (hmiss : find_line L1 (extract_set a L1.s L1.b) (extract_tag a L1.s L1.b) =
      FindResult.miss v) :
    v < ((access_load L1 L2 a ram s1 s2).L1.sets (extract_set a L1.s L1.b)).length ∧
    (lineAt ((access_load L1 L2 a ram s1 s2).L1.sets (extract_set a L1.s L1.b))
      v).valid = true ∧
    (lineAt ((access_load L1 L2 a ram s1 s2).L1.sets (extract_set a L1.s L1.b))
      v).tag = extract_tag a L1.s L1.b ∧
    ∀ k, k < ((access_load L1 L2 a ram s1 s2).L1.sets
        (extract_set a L1.s L1.b)).length → k ≠ v →
      ¬((lineAt ((access_load L1 L2 a ram s1 s2).L1.sets (extract_set a L1.s L1.b))
          k).valid = true ∧
        (lineAt ((access_load L1 L2 a ram s1 s2).L1.sets (extract_set a L1.s L1.b))
          k).tag = extract_tag a L1.s L1.b) := by
  have hm' : find_line_list (extract_tag a L1.s L1.b)
      (L1.sets (extract_set a L1.s L1.b)) = FindResult.miss v := by
    rw [← find_line_eq_list]
    exact hmiss
  have hv := find_line_list_miss_lt _ _ v hlen hm'
  have hnm := find_line_list_miss_no_match _ _ v hseg hm'
  have hsets : (access_load L1 L2 a ram s1 s2).L1.sets (extract_set a L1.s L1.b) =
      (L1.sets (extract_set a L1.s L1.b)).set v
        { valid := true, tag := extract_tag a L1.s L1.b,
          fifo_counter := L1.fifo_time,
          block := read_block_from_ram ram a (2 ^ L1.b) } := by
    rcases hf2 : find_line L2 (extract_set a L2.s L2.b) (extract_tag a L2.s L2.b)
      with j | w
    · rw [access_load_miss_hit_shape L1 L2 a ram s1 s2 v j hmiss hf2]
      exact Cache.setLine_sets_self L1 _ v _
    · rw [access_load_miss_miss_shape L1 L2 a ram s1 s2 v w hmiss hf2]
      exact Cache.setLine_sets_self L1 _ v _
  rw [hsets, List.length_set]
  refine ⟨hv, ?_, ?_, ?_⟩
  · rw [lineAt_set_self _ v _ hv]
  · rw [lineAt_set_self _ v _ hv]
  · intro k hk hkv hcon
    rw [lineAt_set_ne _ v k _ hkv] at hcon
    exact hnm k hk hcon.1 hcon.2

/-- C6 witness: the first load into a fresh cache fills line 0 of its set
with the requested tag, and no other line carries it. -/
theorem load_fills_exactly_one_L1_line_witness :
    FirstSeg ((create_cache 1 2 4).sets (extract_set 16 1 4)) ∧
    0 < ((create_cache 1 2 4).sets (extract_set 16 1 4)).length ∧
    (lineAt ((access_load (create_cache 1 2 4) (create_cache 2 2 4) 16 (fun _ => 0)
        {} {}).L1.sets (extract_set 16 1 4)) 0).valid = true := by
  refine ⟨by decide, by decide, ?_⟩
  exact (load_fills_exactly_one_L1_line (create_cache 1 2 4) (create_cache 2 2 4) 16
    (fun _ => 0) {} {} 0 (by decide) (by decide) (by decide)).2.1

/-- C8: every MODIFY behaves exactly as a LOAD immediately followed by a
STORE to the same address — same final caches, RAM and counters, with the
two independent result records being those of the two phases (stated for
every address and cache state, hit or miss); and in particular, on a cold
address (miss in both caches) the load phase reports both misses and both
fills, and the store phase then hits both levels because the load warmed
them. -/
theorem modify_is_load_then_store (L1 L2 : Cache) (a : Nat) (data : List Nat)
    (ram : Ram) (s1 s2 : Stats) :
    ((access_modify L1 L2 a data ram s1 s2).load_res =
        (access_load L1 L2 a ram s1 s2).res ∧
     (access_modify L1 L2 a data ram s1 s2).store_res =
        (access_store (access_load L1 L2 a ram s1 s2).L1
          (access_load L1 L2 a ram s1 s2).L2 a data ram
          (access_load L1 L2 a ram s1 s2).s1
          (access_load L1 L2 a ram s1 s2).s2).res ∧
     (access_modify L1 L2 a data ram s1 s2).L1 =
        (access_store (access_load L1 L2 a ram s1 s2).L1
          (access_load L1 L2 a ram s1 s2).L2 a data ram
          (access_load L1 L2 a ram s1 s2).s1
          (access_load L1 L2 a ram s1 s2).s2).L1 ∧
     (access_modify L1 L2 a data ram s1 s2).L2 =
        (access_store (access_load L1 L2 a ram s1 s2).L1
          (access_load L1 L2 a ram s1 s2).L2 a data ram
          (access_load L1 L2 a ram s1 s2).s1
          (access_load L1 L2 a ram s1 s2).s2).L2 ∧
     (access_modify L1 L2 a data ram s1 s2).s1 =
        (access_store (access_load L1 L2 a ram s1 s2).L1
          (access_load L1 L2 a ram s1 s2).L2 a data ram
          (access_load L1 L2 a ram s1 s2).s1
          (access_load L1 L2 a ram s1 s2).s2).s1 ∧
     (access_modify L1 L2 a data ram s1 s2).s2 =
        (access_store (access_load L1 L2 a ram s1 s2).L1
          (access_load L1 L2 a ram s1 s2).L2 a data ram
          (access_load L1 L2 a ram s1 s2).s1
          (access_load L1 L2 a ram s1 s2).s2).s2 ∧
     (access_modify L1 L2 a data ram s1 s2).ram =
        (access_store (access_load L1 L2 a ram s1 s2).L1
          (access_load L1 L2 a ram s1 s2).L2 a data ram
          (access_load L1 L2 a ram s1 s2).s1
          (access_load L1 L2 a ram s1 s2).s2).ram) ∧
    (∀ v w, 0 < (L1.sets (extract_set a L1.s L1.b)).length →
      0 < (L2.sets (extract_set a L2.s L2.b)).length →
      find_line L1 (extract_set a L1.s L1.b) (extract_tag a L1.s L1.b) =
        FindResult.miss v →
      find_line L2 (extract_set a L2.s L2.b) (extract_tag a L2.s L2.b) =
        FindResult.miss w →
      (access_modify L1 L2 a data ram s1 s2).load_res.l1_miss = true ∧
      (access_modify L1 L2 a data ram s1 s2).load_res.l2_miss = true ∧
      (access_modify L1 L2 a data ram s1 s2).load_res.placed_in_l1 = true ∧
      (access_modify L1 L2 a data ram s1 s2).load_res.placed_in_l2 = true ∧
      (access_modify L1 L2 a data ram s1 s2).store_res.l1_hit = true ∧
      (access_modify L1 L2 a data ram s1 s2).store_res.l2_hit = true) := by
  refine ⟨⟨rfl, rfl, rfl, rfl, rfl, rfl, rfl⟩, ?_⟩
  intro v w hlen1 hlen2 hm1 hm2
  have hhit1 := fill_cache_find_hit L1 a L1.fifo_time (L1.fifo_time + 1)
    (read_block_from_ram ram a (2 ^ L1.b)) v hlen1 hm1
  have hhit2 := fill_cache_find_hit L2 a L2.fifo_time (L2.fifo_time + 1)
    (read_block_from_ram ram a (2 ^ L2.b)) w hlen2 hm2
  have hlo := access_load_miss_miss_shape L1 L2 a ram s1 s2 v w hm1 hm2
  refine ⟨?_, ?_, ?_, ?_, ?_, ?_⟩
  · show (access_load L1 L2 a ram s1 s2).res.l1_miss = true
    rw [hlo]
  · show (access_load L1 L2 a ram s1 s2).res.l2_miss = true
    rw [hlo]
  · show (access_load L1 L2 a ram s1 s2).res.placed_in_l1 = true
    rw [hlo]
  · show (access_load L1 L2 a ram s1 s2).res.placed_in_l2 = true
    rw [hlo]
  · show (access_store (access_load L1 L2 a ram s1 s2).L1
        (access_load L1 L2 a ram s1 s2).L2 a data ram
        (access_load L1 L2 a ram s1 s2).s1
        (access_load L1 L2 a ram s1 s2).s2).res.l1_hit = true
    simp only [hlo]
    rw [access_store_hit_hit_shape _ _ a data ram _ _ v w hhit1 hhit2]
  · show (access_store (access_load L1 L2 a ram s1 s2).L1
        (access_load L1 L2 a ram s1 s2).L2 a data ram
        (access_load L1 L2 a ram s1 s2).s1
        (access_load L1 L2 a ram s1 s2).s2).res.l2_hit = true
    simp only [hlo]
    rw [access_store_hit_hit_shape _ _ a data ram _ _ v w hhit1 hhit2]

/-- C8 witness: a MODIFY to a cold address on fresh caches. -/
theorem modify_is_load_then_store_witness :
    0 < ((create_cache 1 2 4).sets (extract_set 16 1 4)).length ∧
    (access_modify (create_cache 1 2 4) (create_cache 2 2 4) 16 [1] (fun _ => 0)
      {} {}).load_res.l1_miss = true ∧
    (access_modify (create_cache 1 2 4) (create_cache 2 2 4) 16 [1] (fun _ => 0)
      {} {}).store_res.l1_hit = true ∧
    (access_modify (create_cache 1 2 4) (create_cache 2 2 4) 16 [1] (fun _ => 0)
      {} {}).store_res.l2_hit = true := by
  have h := (modify_is_load_then_store (create_cache 1 2 4) (create_cache 2 2 4) 16 [1]
    (fun _ => 0) {} {}).2 0 0 (by decide) (by decide) (by decide) (by decide)
  exact ⟨by decide, h.1, h.2.2.2.2.1, h.2.2.2.2.2⟩

/-- C9 counterexample to the claim as stated: after `I 0` (which fills
L1-instruction and L2 from RAM) and then `S 0, [9]` (which writes through
to RAM and updates L2 but never touches L1-instruction), the valid
L1-instruction line still holds the old byte 0 while the backing store
holds 9 — so not every valid line of every cache instance matches the
backing store. -/
theorem line_ram_consistency_cex :
    (lineAt ((replay (initState 0 1 2 0 1 2 (fun _ => 0))
        [{ op := OpType.inst, address := 0 },
         { op := OpType.store, address := 0, data := [9] }]).L1I.sets 0) 0).valid =
      true ∧
    ¬ Consist (replay (initState 0 1 2 0 1 2 (fun _ => 0))
        [{ op := OpType.inst, address := 0 },
         { op := OpType.store, address := 0, data := [9] }]).L1I
      (replay (initState 0 1 2 0 1 2 (fun _ => 0))
        [{ op := OpType.inst, address := 0 },
         { op := OpType.store, address := 0, data := [9] }]).ram := by
  constructor
  · decide
  · intro h
    have hbyte := h 0 (by decide) 0 (by decide) (by decide) 0 (by decide)
    exact absurd hbyte (by decide)

/-- C9 (amended): after replaying any trace whose STORE/MODIFY data ranges
each stay inside a single block at both the L1 and L2 granularity, every
valid line of the L1-data and L2 caches holds block bytes equal to the
backing store's bytes at the addresses it covers.  (L1-instruction lines
are excluded: a STORE never updates them, so they can go stale — see the
counterexample.) -/
theorem line_ram_consistency_amended (l1s l1E l1b l2s l2E l2b : Nat) (ram : Ram)
    (ops : List TraceOp) (hwf : ∀ op ∈ ops, OpWF l1b l2b op) :
    Consist (replay (initState l1s l1E l1b l2s l2E l2b ram) ops).L1D
      (replay (initState l1s l1E l1b l2s l2E l2b ram) ops).ram ∧
    Consist (replay (initState l1s l1E l1b l2s l2E l2b ram) ops).L2
      (replay (initState l1s l1E l1b l2s l2E l2b ram) ops).ram :=
  replay_Consist ops (initState l1s l1E l1b l2s l2E l2b ram)
    (initState_Good l1s l1E l1b l2s l2E l2b ram)
    (initState_Consist l1s l1E l1b l2s l2E l2b ram) hwf

/-- C9 witness: a one-op in-block trace; the L1-data cache agrees with the
backing store afterwards. -/
theorem line_ram_consistency_amended_witness :
    (∀ op ∈ ([{ op := OpType.store, address := 0, data := [9] }] : List TraceOp),
      OpWF 2 2 op) ∧
    Consist (replay (initState 0 1 2 0 1 2 (fun _ => 0))
        [{ op := OpType.store, address := 0, data := [9] }]).L1D
      (replay (initState 0 1 2 0 1 2 (fun _ => 0))
        [{ op := OpType.store, address := 0, data := [9] }]).ram :=
  ⟨by decide,
    (line_ram_consistency_amended 0 1 2 0 1 2 (fun _ => 0)
      [{ op := OpType.store, address := 0, data := [9] }] (by decide)).1⟩

end CacheSim
